import Mathlib

/-!
# spotify-top-five: a shallow embedding of `main.go`

The program asks the Spotify Web API for the top artists and top tracks of a user
over two time ranges and prints four ranked lists.  This development embeds
`main.go` function by function and settles the claims of its specification.

Conventions of the embedding:

* Go strings are Lean `String`s (well-formed UTF-8); where Go works on bytes
  the UTF-8 bytes of the characters are used.  A `[]byte` read from the
  network is a list of natural numbers, each below 256; it need not be
  well-formed UTF-8.
* Go `error` values are values of `GoError`; `(T, error)` results are
  `Except GoError T`.
* Library functions the program calls (`net/url`, `net/http`, `fmt`,
  `encoding/json`) are modelled after their documented behaviour; each such
  definition says which library function it stands for.
* The two goroutines of a flow are threads of an interleaving transition
  system (`Flow`), the scheduler being an arbitrary list of thread choices.
-/

namespace SpotifyTopFive

/-! ## Strings and bytes -/

/-- UTF-8 bytes of one character, as Go stores it in a string. -/
def utf8Bytes (c : Char) : List Nat :=
  let n := c.toNat
  if n < 0x80 then [n]
  else if n < 0x800 then [0xC0 + n / 64, 0x80 + n % 64]
  else if n < 0x10000 then [0xE0 + n / 4096, 0x80 + (n / 64) % 64, 0x80 + n % 64]
  else [0xF0 + n / 262144, 0x80 + (n / 4096) % 64, 0x80 + (n / 64) % 64, 0x80 + n % 64]

/-- Bytes of a Go string. -/
def goBytes (s : String) : List Nat :=
  s.data.flatMap utf8Bytes

/-- The replacement character U+FFFD (`utf8.RuneError`). -/
def replacementChar : Char := Char.ofNat 0xFFFD

/-- Lowest second byte `utf8.DecodeRune` accepts after the first byte `b0`
    (the table `acceptRanges`). -/
def acceptLo (b0 : Nat) : Nat :=
  if b0 = 0xE0 then 0xA0 else if b0 = 0xF0 then 0x90 else 0x80

/-- Highest second byte `utf8.DecodeRune` accepts after the first byte `b0`. -/
def acceptHi (b0 : Nat) : Nat :=
  if b0 = 0xED then 0x9F else if b0 = 0xF4 then 0x8F else 0xBF

/-- A continuation byte, `0x80` to `0xBF`. -/
def isCont (b : Nat) : Bool :=
  0x80 ≤ b && b ≤ 0xBF

/-- The function `utf8.DecodeRune` on the bytes `b0 :: rest`: the character at
    their head and its width in bytes.  A byte that starts no well-formed
    encoding (also a truncated one, an overlong one, a surrogate) gives U+FFFD
    and the width one. -/
def DecodeRune (b0 : Nat) (rest : List Nat) : Char × Nat :=
  if b0 < 0x80 then (Char.ofNat b0, 1)
  else if 0xC2 ≤ b0 ∧ b0 ≤ 0xDF then
    match rest with
    | b1 :: _ =>
        if isCont b1 then (Char.ofNat ((b0 - 0xC0) * 64 + (b1 - 0x80)), 2)
        else (replacementChar, 1)
    | _ => (replacementChar, 1)
  else if 0xE0 ≤ b0 ∧ b0 ≤ 0xEF then
    match rest with
    | b1 :: b2 :: _ =>
        if acceptLo b0 ≤ b1 ∧ b1 ≤ acceptHi b0 ∧ isCont b2 then
          (Char.ofNat (((b0 - 0xE0) * 64 + (b1 - 0x80)) * 64 + (b2 - 0x80)), 3)
        else (replacementChar, 1)
    | _ => (replacementChar, 1)
  else if 0xF0 ≤ b0 ∧ b0 ≤ 0xF4 then
    match rest with
    | b1 :: b2 :: b3 :: _ =>
        if acceptLo b0 ≤ b1 ∧ b1 ≤ acceptHi b0 ∧ isCont b2 ∧ isCont b3 then
          (Char.ofNat ((((b0 - 0xF0) * 64 + (b1 - 0x80)) * 64 + (b2 - 0x80)) * 64 +
            (b3 - 0x80)), 4)
        else (replacementChar, 1)
    | _ => (replacementChar, 1)
  else (replacementChar, 1)

/-- The characters of a byte sequence, read by `utf8.DecodeRune` from left to
    right; the first `skip` bytes belong to the character read last. -/
def decodeFrom : Nat → List Nat → List Char
  | _, [] => []
  | skip + 1, _ :: rest => decodeFrom skip rest
  | 0, b0 :: rest => (DecodeRune b0 rest).1 :: decodeFrom ((DecodeRune b0 rest).2 - 1) rest

/-- The characters of a byte sequence: every well-formed encoding gives its
    character, every other byte U+FFFD. -/
def decodeUTF8 (data : List Nat) : List Char :=
  decodeFrom 0 data

/-- The order `<` of Go on strings: lexicographic on bytes. -/
def bytesLt : List Nat → List Nat → Bool
  | [], [] => false
  | [], _ :: _ => true
  | _ :: _, [] => false
  | a :: as, b :: bs => if a < b then true else if b < a then false else bytesLt as bs

/-- Insertion of a key into a list sorted by `bytesLt`. -/
def insertKey (k : String) : List String → List String
  | [] => [k]
  | x :: xs => if bytesLt (goBytes x) (goBytes k) then x :: insertKey k xs else k :: x :: xs

/-- The function `sort.Strings` (ascending, bytewise). -/
def sortStrings : List String → List String
  | [] => []
  | x :: xs => insertKey x (sortStrings xs)

/-! ## `net/url`: `url.Values` and `QueryEscape` -/

/-- Upper-case hexadecimal digit, `"0123456789ABCDEF"[n]`. -/
def upperhex (n : Nat) : Char :=
  if n < 10 then Char.ofNat (48 + n) else Char.ofNat (55 + n)

/-- The test `net/url.shouldEscape(c, encodeQueryComponent)`: only ASCII letters, digits
    and `- _ . ~` are left alone. -/
def shouldEscape (b : Nat) : Bool :=
  if (97 ≤ b ∧ b ≤ 122) ∨ (65 ≤ b ∧ b ≤ 90) ∨ (48 ≤ b ∧ b ≤ 57) then false
  else if b = 45 ∨ b = 95 ∨ b = 46 ∨ b = 126 then false
  else true

/-- One byte of `net/url.escape(s, encodeQueryComponent)`. -/
def escapeByte (b : Nat) : List Char :=
  if shouldEscape b then
    if b = 32 then ['+'] else ['%', upperhex (b / 16), upperhex (b % 16)]
  else [Char.ofNat b]

/-- The function `url.QueryEscape`. -/
def QueryEscape (s : String) : String :=
  String.mk ((goBytes s).flatMap escapeByte)

/-- The type `url.Values` is `map[string][]string`; the map is kept as an association
    list with distinct keys (a Go map has no order, `Encode` sorts the keys). -/
abbrev Values := List (String × List String)

/-- The method `url.Values.Add`: `v[key] = append(v[key], value)`. -/
def Values.Add : Values → String → String → Values
  | [], key, value => [(key, [value])]
  | (k, vs) :: rest, key, value =>
      if k = key then (k, vs ++ [value]) :: rest
      else (k, vs) :: Values.Add rest key value

/-- Join with `&`, as `Encode` does with its `buf.Len() > 0` test. -/
def joinAmp : List String → String
  | [] => ""
  | [p] => p
  | p :: q :: rest => p ++ "&" ++ joinAmp (q :: rest)

/-- The method `url.Values.Encode`: keys sorted, every `key=value` pair query-escaped,
    pairs joined by `&`. -/
def Values.Encode (v : Values) : String :=
  let keys := sortStrings (v.map Prod.fst)
  joinAmp (keys.flatMap fun k =>
    ((v.lookup k).getD []).map fun x => QueryEscape k ++ "=" ++ QueryEscape x)

/-! ## Package-level variables of `main.go` -/

/-- The declaration `type timeRangeDescriptor string`. -/
abbrev timeRangeDescriptor := String

/-- The variable `baseUrl`. -/
def baseUrl : String := "https://api.spotify.com/v1/me/top"

/-- The variable `artistsURL = baseUrl + "/artists"`. -/
def artistsURL : String := baseUrl ++ "/artists"

/-- The variable `tracksURL = baseUrl + "/tracks"`. -/
def tracksURL : String := baseUrl ++ "/tracks"

/-- The variable `longTerm`. -/
def longTerm : timeRangeDescriptor := "long_term"

/-- The variable `shortTerm`. -/
def shortTerm : timeRangeDescriptor := "short_term"

/-- The variable `limit`, a string in the source. -/
def limit : String := "5"

/-- The `form` and `fullUrl` of `artistRequest`:
    `fmt.Sprintf("%s?%s", artistsURL, form.Encode())`. -/
def artistFullUrl (timeRange : timeRangeDescriptor) : String :=
  let form : Values := []
  let form := form.Add "time_range" timeRange
  let form := form.Add "limit" limit
  artistsURL ++ "?" ++ form.Encode

/-- The `form` and `fullUrl` of `trackRequest`. -/
def trackFullUrl (timeRange : timeRangeDescriptor) : String :=
  let form : Values := []
  let form := form.Add "time_range" timeRange
  let form := form.Add "limit" limit
  tracksURL ++ "?" ++ form.Encode

/-! ## Reading a query string back (specification side) -/

/-- Split a character list at every occurrence of `sep`. -/
def splitAt (sep : Char) : List Char → List (List Char)
  | [] => [[]]
  | c :: cs =>
      match splitAt sep cs with
      | [] => [[]]
      | p :: ps => if c = sep then [] :: p :: ps else (c :: p) :: ps

/-- Split `key=value` at the first `=`. -/
def splitPair : List Char → String × String
  | [] => ("", "")
  | c :: cs =>
      if c = '=' then ("", String.mk cs)
      else let (k, v) := splitPair cs; (String.mk (c :: k.data), v)

/-- The parameters of a query string, in order: the pieces between `&`, each
    cut at its first `=`. -/
def queryParams (q : String) : List (String × String) :=
  if q = "" then [] else (splitAt '&' q.data).map splitPair

/-- The values the query string gives to parameter `key`. -/
def paramValues (q key : String) : List String :=
  ((queryParams q).filter fun p => p.1 = key).map Prod.snd

/-! ## Errors and `net/http` -/

/-- A Go `error` value, by where it was made. -/
inductive GoError where
  /-- An error made by `errors.New(msg)`; its `Error()` is `msg`. -/
  | errorsNew (msg : String)
  /-- An error of a library call the embedding does not look into
      (`http.NewRequest`, `client.Do`, `ioutil.ReadAll`). -/
  | lib (msg : String)
  /-- A `*json.SyntaxError`: the bytes are not valid JSON. -/
  | jsonSyntax
  /-- A `*json.UnmarshalTypeError` with its `Value` field. -/
  | jsonUnmarshalType (value : String)
  deriving DecidableEq

/-- The part of `*http.Request` the program sets. -/
structure Request where
  Method : String
  URL : String
  Header : List (String × String)
  deriving DecidableEq

/-- The part of `*http.Response` the program reads.  `Body` is what
    `ioutil.ReadAll(resp.Body)` yields: the bytes, or a read error. -/
structure Response where
  StatusCode : Int
  Status : String
  Body : Except GoError (List Nat)

/-- The surroundings of a run: the `SPOTIFY_KEY` environment variable, the URL
    check of `http.NewRequest`, and what `client.Do` answers to a request. -/
structure Client where
  spotifyKey : String
  urlError : String → Option GoError
  Do : Request → Except GoError Response

/-- The call `http.NewRequest("GET", url, nil)`: fails only when the URL does not
    parse. -/
def NewRequest (client : Client) (method url : String) : Except GoError Request :=
  match client.urlError url with
  | some e => .error e
  | none => .ok { Method := method, URL := url, Header := [] }

/-- The call `req.Header.Add(key, value)`. -/
def Request.HeaderAdd (req : Request) (key value : String) : Request :=
  { req with Header := req.Header ++ [(key, value)] }

/-- The function `spotifyRequest` of `main.go`. -/
def spotifyRequest (url : String) (client : Client) : Except GoError Response :=
  match NewRequest client "GET" url with
  | .error err => .error err
  | .ok req =>
    let req := req.HeaderAdd "Authorization" ("Bearer " ++ client.spotifyKey)
    let req := req.HeaderAdd "Content-Type" "application/x-www-form-urlencoded"
    match client.Do req with
    | .error err => .error err
    | .ok resp =>
      if 200 ≠ resp.StatusCode then
        .error (.errorsNew ("resp had non 200 status code: " ++ resp.Status))
      else
        .ok resp

/-- The request `spotifyRequest` hands to `client.Do` for a URL that parses. -/
def spotifyRequestOf (url : String) (client : Client) : Request :=
  { Method := "GET", URL := url,
    Header := [("Authorization", "Bearer " ++ client.spotifyKey),
               ("Content-Type", "application/x-www-form-urlencoded")] }

/-! ## `encoding/json`: syntax

`json.Unmarshal` first checks that the bytes are valid JSON (`checkValid`) and
only then decodes.  `parseJSON` is that check, returning the syntax tree.

The scanner of `encoding/json` works on bytes.  Outside string literals it
accepts ASCII bytes only; inside them it accepts every byte other than the
quote, the backslash and the control bytes below `0x20`, and `unquote` then
reads the literal with `utf8.DecodeRune`, which turns every byte that is not
part of a well-formed encoding into U+FFFD.  No byte of a multi-byte encoding
is an ASCII byte, so reading the whole input with `utf8.DecodeRune` first and
scanning characters afterwards gives the same: a byte that is not well-formed
UTF-8 becomes U+FFFD, which is kept inside a string literal and is a syntax
error anywhere else. -/

/-- A JSON text.  Numbers keep their literal, objects keep their members in
    order, repeated keys included. -/
inductive JSON where
  | null
  | bool (b : Bool)
  | num (lit : String)
  | str (s : String)
  | arr (xs : List JSON)
  | obj (kvs : List (String × JSON))

/-- The double quote, U+0022. -/
def quote : Char := Char.ofNat 34

/-- The backslash, U+005C. -/
def backslash : Char := Char.ofNat 92

/-- The opening brace, U+007B. -/
def openBrace : Char := Char.ofNat 123

/-- The closing brace, U+007D. -/
def closeBrace : Char := Char.ofNat 125

/-- JSON white space: space, tab, carriage return, line feed. -/
def isSpace (c : Char) : Bool :=
  c = ' ' || c = '\t' || c = '\r' || c = '\n'

/-- The input without its leading white space. -/
def skipSpace : List Char → List Char
  | [] => []
  | c :: cs => if isSpace c then skipSpace cs else c :: cs

/-- A decimal digit. -/
def isDigit (c : Char) : Bool :=
  '0'.toNat ≤ c.toNat && c.toNat ≤ '9'.toNat

/-- Value of a hexadecimal digit. -/
def hexVal (c : Char) : Option Nat :=
  let n := c.toNat
  if 48 ≤ n ∧ n ≤ 57 then some (n - 48)
  else if 97 ≤ n ∧ n ≤ 102 then some (n - 87)
  else if 65 ≤ n ∧ n ≤ 70 then some (n - 55)
  else none

/-- The function `getu4` of `encoding/json`: the code unit of a `\uXXXX` escape at the head of the input. -/
def getu4 : List Char → Option Nat
  | bs :: u :: a :: b :: c :: d :: _ =>
      if bs = backslash ∧ u = 'u' then
        match hexVal a, hexVal b, hexVal c, hexVal d with
        | some a, some b, some c, some d => some (((a * 16 + b) * 16 + c) * 16 + d)
        | _, _, _, _ => none
      else none
  | _ => none

/-- The character a one-letter escape `\e` stands for. -/
def simpleEscape (e : Char) : Option Char :=
  if e = quote then some quote
  else if e = backslash then some backslash
  else if e = '/' then some '/'
  else if e = 'b' then some (Char.ofNat 8)
  else if e = 'f' then some (Char.ofNat 12)
  else if e = 'n' then some '\n'
  else if e = 'r' then some '\r'
  else if e = 't' then some '\t'
  else none

/-- The escape whose backslash has just been read: the character it stands
    for and the input after it.  A `\u` escape naming a surrogate is joined
    with a following low surrogate or becomes U+FFFD. -/
def unescape : List Char → Option (Char × List Char)
  | [] => none
  | e :: rest =>
      match simpleEscape e with
      | some ch => some (ch, rest)
      | none =>
        if e = 'u' then
          match getu4 (backslash :: e :: rest) with
          | none => none
          | some u =>
            let after := rest.drop 4
            if 0xD800 ≤ u ∧ u < 0xE000 then
              match getu4 after with
              | some v =>
                if u < 0xDC00 ∧ 0xDC00 ≤ v ∧ v < 0xE000 then
                  some (Char.ofNat ((u - 0xD800) * 1024 + (v - 0xDC00) + 0x10000),
                    after.drop 6)
                else some (replacementChar, after)
              | none => some (replacementChar, after)
            else some (Char.ofNat u, after)
        else none

/-- The body of a string literal after its opening quote: the unquoted text
    (`unquoteBytes`) and the input after the closing quote.  Control characters
    below U+0020 are not allowed. -/
def parseStringBody : Nat → List Char → List Char → Option (String × List Char)
  | 0, _, _ => none
  | _ + 1, _, [] => none
  | fuel + 1, acc, c :: cs =>
      if c = quote then some (String.mk acc.reverse, cs)
      else if c.toNat < 0x20 then none
      else if c = backslash then
        match unescape cs with
        | none => none
        | some (ch, rest) => parseStringBody fuel (ch :: acc) rest
      else parseStringBody fuel (c :: acc) cs

/-- Leading digits of the input and the rest. -/
def spanDigits : List Char → List Char × List Char
  | [] => ([], [])
  | c :: cs =>
      if isDigit c then let (ds, rest) := spanDigits cs; (c :: ds, rest)
      else ([], c :: cs)

/-- An optional minus sign. -/
def readSign : List Char → List Char × List Char
  | '-' :: rest => (['-'], rest)
  | cs => ([], cs)

/-- The integer part is `0` or starts with a digit other than `0`. -/
def intPartOk : List Char → Bool
  | [] => false
  | [_] => true
  | d :: _ :: _ => d ≠ '0'

/-- An optional fraction: a point and at least one digit. -/
def readFraction : List Char → Option (List Char × List Char)
  | '.' :: rest =>
      if (spanDigits rest).1.isEmpty then none
      else some ('.' :: (spanDigits rest).1, (spanDigits rest).2)
  | cs => some ([], cs)

/-- An optional exponent: `e` or `E`, an optional sign and at least one
    digit. -/
def readExponent : List Char → Option (List Char × List Char)
  | [] => some ([], [])
  | e :: rest =>
      if e = 'e' ∨ e = 'E' then
        match rest with
        | '+' :: r =>
            if (spanDigits r).1.isEmpty then none
            else some (e :: '+' :: (spanDigits r).1, (spanDigits r).2)
        | '-' :: r =>
            if (spanDigits r).1.isEmpty then none
            else some (e :: '-' :: (spanDigits r).1, (spanDigits r).2)
        | r =>
            if (spanDigits r).1.isEmpty then none
            else some (e :: (spanDigits r).1, (spanDigits r).2)
      else some ([], e :: rest)

/-- A number literal at the head of the input:
    `-? (0 | [1-9][0-9]*) (. [0-9]+)? ([eE] [+-]? [0-9]+)?`. -/
def parseNumber (cs : List Char) : Option (String × List Char) :=
  let signed := readSign cs
  let int := spanDigits signed.2
  if intPartOk int.1 then
    match readFraction int.2 with
    | none => none
    | some (frac, cs1) =>
      match readExponent cs1 with
      | none => none
      | some (ex, cs2) => some (String.mk (signed.1 ++ int.1 ++ frac ++ ex), cs2)
  else none

/-- The literals `true`, `false` and `null`. -/
def readKeyword : List Char → Option (JSON × List Char)
  | 't' :: 'r' :: 'u' :: 'e' :: rest => some (.bool true, rest)
  | 'f' :: 'a' :: 'l' :: 's' :: 'e' :: rest => some (.bool false, rest)
  | 'n' :: 'u' :: 'l' :: 'l' :: rest => some (.null, rest)
  | _ => none

/-- Nesting depth beyond which the scanner gives up (`maxNestingDepth`). -/
def maxNestingDepth : Nat := 10000

mutual
/-- One JSON value at the head of the input (leading white space skipped); the
    value and the rest of the input.  `depth` counts the arrays and objects
    open around it. -/
def parseValue : Nat → Nat → List Char → Option (JSON × List Char)
  | 0, _, _ => none
  | fuel + 1, depth, cs =>
      match skipSpace cs with
      | [] => none
      | c :: rest =>
        if c = openBrace then
          if depth + 1 > maxNestingDepth then none else
          match skipSpace rest with
          | [] => none
          | d :: rest2 =>
            if d = closeBrace then some (.obj [], rest2) else
            match parseMembers fuel (depth + 1) (d :: rest2) with
            | some (kvs, rest3) => some (.obj kvs, rest3)
            | none => none
        else if c = '[' then
          if depth + 1 > maxNestingDepth then none else
          match skipSpace rest with
          | [] => none
          | d :: rest2 =>
            if d = ']' then some (.arr [], rest2) else
            match parseElements fuel (depth + 1) (d :: rest2) with
            | some (xs, rest3) => some (.arr xs, rest3)
            | none => none
        else if c = quote then
          match parseStringBody (rest.length + 1) [] rest with
          | some (s, rest2) => some (.str s, rest2)
          | none => none
        else if c = '-' ∨ isDigit c then
          match parseNumber (c :: rest) with
          | some (lit, rest2) => some (.num lit, rest2)
          | none => none
        else readKeyword (c :: rest)
/-- The elements of a non-empty array up to and including its `]`. -/
def parseElements : Nat → Nat → List Char → Option (List JSON × List Char)
  | 0, _, _ => none
  | fuel + 1, depth, cs =>
      match parseValue fuel depth cs with
      | none => none
      | some (v, rest) =>
        match skipSpace rest with
        | [] => none
        | d :: rest2 =>
          if d = ',' then
            match parseElements fuel depth rest2 with
            | some (vs, rest3) => some (v :: vs, rest3)
            | none => none
          else if d = ']' then some ([v], rest2)
          else none
/-- The members of a non-empty object up to and including its `}`. -/
def parseMembers : Nat → Nat → List Char → Option (List (String × JSON) × List Char)
  | 0, _, _ => none
  | fuel + 1, depth, cs =>
      match skipSpace cs with
      | [] => none
      | q :: rest =>
        if q ≠ quote then none else
        match parseStringBody (rest.length + 1) [] rest with
        | none => none
        | some (key, rest1) =>
          match skipSpace rest1 with
          | [] => none
          | colon :: rest2 =>
            if colon ≠ ':' then none else
            match parseValue fuel depth rest2 with
            | none => none
            | some (v, rest3) =>
              match skipSpace rest3 with
              | [] => none
              | d :: rest4 =>
                if d = ',' then
                  match parseMembers fuel depth rest4 with
                  | some (kvs, rest5) => some ((key, v) :: kvs, rest5)
                  | none => none
                else if d = closeBrace then some ([(key, v)], rest4)
                else none
end

/-- The syntax check of `json.Unmarshal` (`checkValid`) on the bytes `data`:
    one value, white space around it and nothing else.  `none` is a
    `*json.SyntaxError`. -/
def parseJSON (data : List Nat) : Option JSON :=
  match parseValue (2 * (decodeUTF8 data).length + 2) 0 (decodeUTF8 data) with
  | some (v, rest) => if (skipSpace rest).isEmpty then some v else none
  | none => none

/-! ## `encoding/json`: numbers -/

/-- Decimal value of a digit string. -/
def digitsVal (ds : List Char) : Nat :=
  ds.foldl (fun n c => 10 * n + (c.toNat - 48)) 0

/-- The call `strconv.ParseInt(lit, 10, 64)` on a JSON number literal: it succeeds when
    the literal has neither fraction nor exponent and fits 64 bits. -/
def parseInt64 (lit : String) : Option Int :=
  let (neg, ds) := match lit.data with
    | '-' :: rest => (true, rest)
    | cs => (false, cs)
  if ds.isEmpty ∨ ¬ ds.all isDigit then none
  else
    let n := digitsVal ds
    if neg then (if n ≤ 2 ^ 63 then some (- (n : Int)) else none)
    else (if n < 2 ^ 63 then some (n : Int) else none)

/-- Mantissa digits, number of fraction digits and exponent of a JSON number
    literal: the literal denotes `mantissa * 10 ^ (exponent - fraction)`. -/
def numberParts (lit : String) : Nat × Nat × Int :=
  let cs := match lit.data with
    | '-' :: rest => rest
    | cs => cs
  let (intPart, cs) := spanDigits cs
  let (frac, cs) := match cs with
    | '.' :: rest => spanDigits rest
    | _ => ([], cs)
  let ex : Int := match cs with
    | _ :: '-' :: ds => - (digitsVal ds : Int)
    | _ :: '+' :: ds => (digitsVal ds : Int)
    | _ :: ds => (digitsVal ds : Int)
    | [] => 0
  (digitsVal (intPart ++ frac), frac.length, ex)

/-- Whether `strconv.ParseFloat(lit, 64)` succeeds on a JSON number literal: it
    fails (`ErrRange`) exactly when the value rounds to infinity, that is when
    its magnitude reaches `2^1024 - 2^970`. -/
def float64InRange (lit : String) : Bool :=
  let (m, f, ex) := numberParts lit
  let e : Int := ex - (f : Int)
  if m = 0 then true
  else if 0 ≤ e then
    if 310 ≤ e then false else decide (m * 10 ^ e.toNat < 2 ^ 1024 - 2 ^ 970)
  else
    if (Nat.toDigits 10 m).length ≤ (-e).toNat then true
    else decide (m < (2 ^ 1024 - 2 ^ 970) * 10 ^ (-e).toNat)

/-! ## `encoding/json`: decoding into Go values -/

/-- The Go types the response declarations of `main.go` are built from.  A
    struct field is (Go name, JSON name of its tag, type). -/
inductive GoType where
  | string
  | int
  | bool
  | iface
  | slice (elem : GoType)
  | struct (fields : List (String × String × GoType))

/-- A value of a `GoType`.  An `interface{}` holds what it was decoded from
    (`JSON.null` for `nil`).  A slice holds its elements `xs` and, after them,
    the elements `spare` that an earlier, longer content left in its backing
    array beyond its length: `d.array` decodes into them again when the slice
    grows back (elements of the backing array never written are zero values
    and need no record); a `nil` slice and an empty one without backing array
    are both `slice [] []`.  A struct holds its fields in declaration order. -/
inductive GoValue where
  | string (s : String)
  | int (n : Int)
  | bool (b : Bool)
  | iface (v : JSON)
  | slice (xs : List GoValue) (spare : List GoValue)
  | struct (fields : List GoValue)

mutual
/-- The zero value of a type. -/
def GoType.zero : GoType → GoValue
  | .string => .string ""
  | .int => .int 0
  | .bool => .bool false
  | .iface => .iface .null
  | .slice _ => .slice [] []
  | .struct fields => .struct (GoType.zeroFields fields)
/-- The zero values of the fields of a struct type. -/
def GoType.zeroFields : List (String × String × GoType) → List GoValue
  | [] => []
  | (_, _, t) :: rest => t.zero :: GoType.zeroFields rest
end

/-- Simple case folding of one character towards ASCII lower case: `A-Z`, and
    the two characters `bytes.EqualFold` also folds to an ASCII letter, the
    long s (U+017F) and the Kelvin sign (U+212A). -/
def foldRune (c : Char) : Char :=
  if 65 ≤ c.toNat ∧ c.toNat ≤ 90 then Char.ofNat (c.toNat + 32)
  else if c.toNat = 0x17F then 's'
  else if c.toNat = 0x212A then 'k'
  else c

/-- Case-insensitive match of a JSON key with a field name
    (`bytes.EqualFold`; exact for ASCII field names, which all tags of
    `main.go` are). -/
def equalFold (name key : String) : Bool :=
  name.data.map foldRune = key.data.map foldRune

/-- Index of the first field satisfying `p`. -/
def findField (p : String → Bool) : List (String × String × GoType) → Option Nat
  | [] => none
  | (_, name, _) :: rest =>
      if p name then some 0 else (findField p rest).map (· + 1)

/-- The struct field a JSON key decodes into: the field whose JSON name is the
    key, else the first field whose name matches it case-insensitively. -/
def fieldIndex (fields : List (String × String × GoType)) (key : String) : Option Nat :=
  match findField (fun name => name = key) fields with
  | some i => some i
  | none => findField (fun name => equalFold name key) fields

/-- The method `d.saveError`: only the first error is kept. -/
def saveError (saved : Option GoError) (e : GoError) : Option GoError :=
  match saved with
  | some e0 => some e0
  | none => some e

mutual
/-- The numbers of a JSON text decoded into an `interface{}` are read by
    `strconv.ParseFloat`; one out of range is recorded as an error. -/
def ifaceErrors : JSON → Option GoError → Option GoError
  | .null, saved => saved
  | .bool _, saved => saved
  | .str _, saved => saved
  | .num lit, saved =>
      if float64InRange lit then saved
      else saveError saved (.jsonUnmarshalType ("number " ++ lit))
  | .arr xs, saved => ifaceErrorsList xs saved
  | .obj kvs, saved => ifaceErrorsMembers kvs saved
/-- The same, through the elements of an array. -/
def ifaceErrorsList : List JSON → Option GoError → Option GoError
  | [], saved => saved
  | x :: xs, saved => ifaceErrorsList xs (ifaceErrors x saved)
/-- The same, through the members of an object. -/
def ifaceErrorsMembers : List (String × JSON) → Option GoError → Option GoError
  | [], saved => saved
  | (_, x) :: kvs, saved => ifaceErrorsMembers kvs (ifaceErrors x saved)
end

mutual
/-- The method `d.value` of the decoder: decode one JSON value into the Go
    value `cur` of type `t`.  A value of the wrong kind records an
    `UnmarshalTypeError` and leaves `cur` as it is; decoding goes on.  An
    array decoded into a slice keeps the backing array of the slice, except
    that the empty array gives a fresh empty slice (`reflect.MakeSlice` with
    length and capacity zero) and `null` gives `nil`. -/
def decodeValue : GoType → JSON → GoValue → Option GoError → GoValue × Option GoError
  | .iface, .null, _, saved => (.iface .null, saved)
  | .slice _, .null, _, saved => (.slice [] [], saved)
  | _, .null, cur, saved => (cur, saved)
  | .bool, .bool b, _, saved => (.bool b, saved)
  | .iface, .bool b, _, saved => (.iface (.bool b), saved)
  | _, .bool _, cur, saved => (cur, saveError saved (.jsonUnmarshalType "bool"))
  | .string, .str s, _, saved => (.string s, saved)
  | .iface, .str s, _, saved => (.iface (.str s), saved)
  | _, .str _, cur, saved => (cur, saveError saved (.jsonUnmarshalType "string"))
  | .int, .num lit, cur, saved =>
      match parseInt64 lit with
      | some n => (.int n, saved)
      | none => (cur, saveError saved (.jsonUnmarshalType ("number " ++ lit)))
  | .iface, .num lit, cur, saved =>
      if float64InRange lit then (.iface (.num lit), saved)
      else (cur, saveError saved (.jsonUnmarshalType ("number " ++ lit)))
  | _, .num _, cur, saved => (cur, saveError saved (.jsonUnmarshalType "number"))
  | .iface, .arr xs, _, saved => (.iface (.arr xs), ifaceErrorsList xs saved)
  | .slice elem, .arr xs, cur, saved =>
      let backing := match cur with
        | .slice vs spare => vs ++ spare
        | _ => []
      let (vs, saved) := decodeElements elem xs backing saved
      (.slice vs (if xs.isEmpty then [] else backing.drop xs.length), saved)
  | _, .arr _, cur, saved => (cur, saveError saved (.jsonUnmarshalType "array"))
  | .iface, .obj kvs, _, saved => (.iface (.obj kvs), ifaceErrorsMembers kvs saved)
  | .struct fields, .obj kvs, cur, saved =>
      let old := match cur with
        | .struct vs => vs
        | _ => GoType.zeroFields fields
      let (vs, saved) := decodeMembers fields kvs old saved
      (.struct vs, saved)
  | _, .obj _, cur, saved => (cur, saveError saved (.jsonUnmarshalType "object"))
/-- The loop of `d.array` on a slice with the given backing array (the
    elements of the slice, then those left beyond its length): the length is
    raised by `SetLen` as the loop goes, so element `i` of the array is decoded
    into element `i` of the backing array when there is one, and into a zero
    value of a grown array otherwise; the slice ends up as long as the
    array. -/
def decodeElements : GoType → List JSON → List GoValue → Option GoError →
    List GoValue × Option GoError
  | _, [], _, saved => ([], saved)
  | elem, x :: xs, backing, saved =>
      let (v, saved) := decodeValue elem x (backing.headD elem.zero) saved
      let (vs, saved) := decodeElements elem xs backing.tail saved
      (v :: vs, saved)
/-- The loop of `d.object` on a struct: every member whose key names a field
    is decoded into that field, the others are skipped. -/
def decodeMembers : List (String × String × GoType) → List (String × JSON) →
    List GoValue → Option GoError → List GoValue × Option GoError
  | _, [], cur, saved => (cur, saved)
  | fields, (key, x) :: kvs, cur, saved =>
      match fieldIndex fields key with
      | none => decodeMembers fields kvs cur saved
      | some i =>
        match fields.get? i with
        | none => decodeMembers fields kvs cur saved
        | some (_, _, t) =>
          let (v, saved) := decodeValue t x (cur.getD i t.zero) saved
          decodeMembers fields kvs (cur.set i v) saved
end

/-- The call `json.Unmarshal(data, v)` for `v` a pointer to a zero value of type `t`:
    the syntax check, then the decoding; the first recorded error is
    returned. -/
def Unmarshal (t : GoType) (data : List Nat) : Except GoError GoValue :=
  match parseJSON data with
  | none => .error .jsonSyntax
  | some j =>
    match decodeValue t j t.zero none with
    | (_, some err) => .error err
    | (v, none) => .ok v

/-! ## The response declarations of `main.go` -/

/-- The `struct { Spotify string }` of every `external_urls` field. -/
def externalUrlsType : GoType :=
  .struct [("Spotify", "spotify", .string)]

/-- The element type of every `images` field. -/
def imageType : GoType :=
  .struct [("Height", "height", .int), ("URL", "url", .string), ("Width", "width", .int)]

/-- The element type of `spotifyArtistResponse.Items`. -/
def artistItemType : GoType :=
  .struct [
    ("ExternalUrls", "external_urls", externalUrlsType),
    ("Followers", "followers", .struct [("Href", "href", .iface), ("Total", "total", .int)]),
    ("Genres", "genres", .slice .string),
    ("Href", "href", .string),
    ("ID", "id", .string),
    ("Images", "images", .slice imageType),
    ("Name", "name", .string),
    ("Popularity", "popularity", .int),
    ("Type", "type", .string),
    ("URI", "uri", .string)]

/-- The declaration `type spotifyArtistResponse struct`. -/
def spotifyArtistResponseType : GoType :=
  .struct [
    ("Items", "items", .slice artistItemType),
    ("Total", "total", .int),
    ("Limit", "limit", .int),
    ("Offset", "offset", .int),
    ("Href", "href", .string),
    ("Previous", "previous", .iface),
    ("Next", "next", .string)]

/-- The element type of the `artists` fields of a track and of its album. -/
def trackArtistType : GoType :=
  .struct [
    ("ExternalUrls", "external_urls", externalUrlsType),
    ("Href", "href", .string),
    ("ID", "id", .string),
    ("Name", "name", .string),
    ("Type", "type", .string),
    ("URI", "uri", .string)]

/-- The `Album` field of a track. -/
def albumType : GoType :=
  .struct [
    ("AlbumType", "album_type", .string),
    ("Artists", "artists", .slice trackArtistType),
    ("ExternalUrls", "external_urls", externalUrlsType),
    ("Href", "href", .string),
    ("ID", "id", .string),
    ("Images", "images", .slice imageType),
    ("Name", "name", .string),
    ("ReleaseDate", "release_date", .string),
    ("ReleaseDatePrecision", "release_date_precision", .string),
    ("Type", "type", .string),
    ("URI", "uri", .string)]

/-- The element type of `spotifyTrackResponse.Items`. -/
def trackItemType : GoType :=
  .struct [
    ("Album", "album", albumType),
    ("Artists", "artists", .slice trackArtistType),
    ("DiscNumber", "disc_number", .int),
    ("DurationMs", "duration_ms", .int),
    ("Explicit", "explicit", .bool),
    ("ExternalIds", "external_ids", .struct [("Isrc", "isrc", .string)]),
    ("ExternalUrls", "external_urls", externalUrlsType),
    ("Href", "href", .string),
    ("ID", "id", .string),
    ("IsLocal", "is_local", .bool),
    ("IsPlayable", "is_playable", .bool),
    ("Name", "name", .string),
    ("Popularity", "popularity", .int),
    ("PreviewURL", "preview_url", .string),
    ("TrackNumber", "track_number", .int),
    ("Type", "type", .string),
    ("URI", "uri", .string),
    ("LinkedFrom", "linked_from", .struct [
      ("ExternalUrls", "external_urls", externalUrlsType),
      ("Href", "href", .string),
      ("ID", "id", .string),
      ("Type", "type", .string),
      ("URI", "uri", .string)])]

/-- The declaration `type spotifyTrackResponse struct`. -/
def spotifyTrackResponseType : GoType :=
  .struct [
    ("Items", "items", .slice trackItemType),
    ("Total", "total", .int),
    ("Limit", "limit", .int),
    ("Offset", "offset", .int),
    ("Href", "href", .string),
    ("Previous", "previous", .iface),
    ("Next", "next", .string)]

/-- Position of the field with Go name `goName`. -/
def goFieldIndex (goName : String) : List (String × String × GoType) → Option Nat
  | [] => none
  | (n, _, _) :: rest =>
      if n = goName then some 0 else (goFieldIndex goName rest).map (· + 1)

/-- Field selection `v.goName` on a value of struct type `t`. -/
def GoValue.field (t : GoType) (goName : String) (v : GoValue) : GoValue :=
  match t, v with
  | .struct fields, .struct vs =>
      match goFieldIndex goName fields with
      | some i => vs.getD i (.string "")
      | none => .string ""
  | _, _ => .string ""

/-- The elements of a slice value, up to its length. -/
def GoValue.elems : GoValue → List GoValue
  | .slice vs _ => vs
  | _ => []

/-- The text of a string value. -/
def GoValue.text : GoValue → String
  | .string s => s
  | _ => ""

/-- What the program reads of an element of `spotifyArtistResponse.Items`:
    its `Name`. -/
structure ArtistItem where
  Name : String
  deriving DecidableEq

/-- What the program reads of a `spotifyArtistResponse`: its `Items`. -/
structure spotifyArtistResponse where
  Items : List ArtistItem
  deriving DecidableEq

/-- What the program reads of an element of the `Artists` of a track: its
    `Name`. -/
structure TrackArtist where
  Name : String
  deriving DecidableEq

/-- What the program reads of an element of `spotifyTrackResponse.Items`: its
    `Name` and its `Artists`. -/
structure TrackItem where
  Name : String
  Artists : List TrackArtist
  deriving DecidableEq

/-- What the program reads of a `spotifyTrackResponse`: its `Items`. -/
structure spotifyTrackResponse where
  Items : List TrackItem
  deriving DecidableEq

/-- The fields of a decoded `spotifyArtistResponse` that the program reads. -/
def toArtistResponse (v : GoValue) : spotifyArtistResponse :=
  { Items := (v.field spotifyArtistResponseType "Items").elems.map fun item =>
      { Name := (item.field artistItemType "Name").text } }

/-- The fields of a decoded `spotifyTrackResponse` that the program reads. -/
def toTrackResponse (v : GoValue) : spotifyTrackResponse :=
  { Items := (v.field spotifyTrackResponseType "Items").elems.map fun item =>
      { Name := (item.field trackItemType "Name").text
        Artists := (item.field trackItemType "Artists").elems.map fun artist =>
          { Name := (artist.field trackArtistType "Name").text } } }

/-! ## The request functions of `main.go` -/

/-- The function `artistRequest` of `main.go`. -/
def artistRequest (timeRange : timeRangeDescriptor) (client : Client) :
    Except GoError spotifyArtistResponse :=
  let fullUrl := artistFullUrl timeRange
  match spotifyRequest fullUrl client with
  | .error err => .error err
  | .ok resp =>
    match resp.Body with
    | .error err => .error err
    | .ok bytes =>
      match Unmarshal spotifyArtistResponseType bytes with
      | .error err => .error err
      | .ok body => .ok (toArtistResponse body)

/-- The function `trackRequest` of `main.go`. -/
def trackRequest (timeRange : timeRangeDescriptor) (client : Client) :
    Except GoError spotifyTrackResponse :=
  let fullUrl := trackFullUrl timeRange
  match spotifyRequest fullUrl client with
  | .error err => .error err
  | .ok resp =>
    match resp.Body with
    | .error err => .error err
    | .ok bytes =>
      match Unmarshal spotifyTrackResponseType bytes with
      | .error err => .error err
      | .ok body => .ok (toTrackResponse body)

/-- The function `getArtistsAllTime` of `main.go`. -/
def getArtistsAllTime (client : Client) : Except GoError spotifyArtistResponse :=
  match artistRequest longTerm client with
  | .error err => .error err
  | .ok resp => .ok resp

/-- The function `getArtistsShortTime` of `main.go`. -/
def getArtistsShortTime (client : Client) : Except GoError spotifyArtistResponse :=
  match artistRequest shortTerm client with
  | .error err => .error err
  | .ok resp => .ok resp

/-- The function `getTracksAllTime` of `main.go`. -/
def getTracksAllTime (client : Client) : Except GoError spotifyTrackResponse :=
  match trackRequest longTerm client with
  | .error err => .error err
  | .ok resp => .ok resp

/-- The function `getTracksShortTime` of `main.go`. -/
def getTracksShortTime (client : Client) : Except GoError spotifyTrackResponse :=
  match trackRequest shortTerm client with
  | .error err => .error err
  | .ok resp => .ok resp

/-! ## Printing -/

/-- A run-time panic of the Go program. -/
inductive GoPanic where
  /-- An index expression `xs[i]` with `i` not below `len(xs)`. -/
  | indexOutOfRange
  /-- A selector on a `nil` pointer. -/
  | nilDereference
  /-- A `WaitGroup` counter below zero. -/
  | negativeWaitGroup
  deriving DecidableEq

/-- The loop `for i, artist := range items { fmt.Printf("%d. %s\n", i+1,
    artist.Name) }`, from index `i` on; `out` is the standard output so far. -/
def rangeArtists : Nat → List ArtistItem → String → String
  | _, [], out => out
  | i, artist :: rest, out =>
      rangeArtists (i + 1) rest (out ++ (toString (i + 1) ++ ". " ++ artist.Name ++ "\n"))

/-- Lines 78-86 of `handleArtists`: the two headers and the two loops.
    `artistsAllTime` and `artistsShortTime` are pointers, `none` being `nil`. -/
def printArtists (artistsAllTime artistsShortTime : Option spotifyArtistResponse)
    (out : String) : String × Option GoPanic :=
  let out := out ++ ("Top five artists all time:" ++ "\n")
  match artistsAllTime with
  | none => (out, some .nilDereference)
  | some allTime =>
    let out := rangeArtists 0 allTime.Items out
    let out := out ++ ("\nTop five artists last four weeks:" ++ "\n")
    match artistsShortTime with
    | none => (out, some .nilDereference)
    | some shortTime => (rangeArtists 0 shortTime.Items out, none)

/-- The loop `for i, track := range items { fmt.Printf("%d. %s - %s\n", i+1,
    track.Name, track.Artists[0].Name) }`, from index `i` on.  The index
    expression `track.Artists[0]` panics on an empty slice, before anything of
    that line is printed. -/
def rangeTracks : Nat → List TrackItem → String → String × Option GoPanic
  | _, [], out => (out, none)
  | i, track :: rest, out =>
      match track.Artists with
      | [] => (out, some .indexOutOfRange)
      | first :: _ =>
        rangeTracks (i + 1) rest
          (out ++ (toString (i + 1) ++ ". " ++ track.Name ++ " - " ++ first.Name ++ "\n"))

/-- Lines 128-136 of `handleTracks`: the two headers and the two loops. -/
def printTracks (tracksAllTime tracksShortTime : Option spotifyTrackResponse)
    (out : String) : String × Option GoPanic :=
  let out := out ++ ("Top five trackks all time:" ++ "\n")
  match tracksAllTime with
  | none => (out, some .nilDereference)
  | some allTime =>
    match rangeTracks 0 allTime.Items out with
    | (out, some p) => (out, some p)
    | (out, none) =>
      let out := out ++ ("\nTop five tracks last four weeks:" ++ "\n")
      match tracksShortTime with
      | none => (out, some .nilDereference)
      | some shortTime => rangeTracks 0 shortTime.Items out

/-! ## The two goroutines of a flow

`handleArtists` and `handleTracks` have the same shape: `wg.Add(2)`, two
`go func() { ... }()`, `wg.Wait()`, the test of `requestErr`, the printing.
`Flow` is that shape; the two functions are its two instances below.  Every
access to a shared variable is one step of the thread that makes it. -/

/-- Where the function body (`handleArtists` or `handleTracks`) stands. -/
inductive MainPc where
  /-- Before `wg.Add(2)`. -/
  | add
  /-- Before the first `go`. -/
  | go1
  /-- Before the second `go`. -/
  | go2
  /-- At `wg.Wait()`. -/
  | wait
  /-- Before `if requestErr != nil`. -/
  | check
  /-- Before the first `fmt.Println`. -/
  | print
  /-- The function has returned. -/
  | returned
  /-- After `log.Fatal(requestErr)`: the process has exited with status 1. -/
  | fatal (err : GoError)
  /-- The process has died of a panic. -/
  | panicked (p : GoPanic)
  deriving DecidableEq

/-- Where a goroutine stands. -/
inductive TaskPc where
  /-- Not yet started by its `go` statement. -/
  | idle
  /-- Started, before the call of its `get...` function. -/
  | ready
  /-- The call has returned `body, err`. -/
  | got
  /-- `requestErr` or the result variable is written, before `wg.Done()`. -/
  | stored
  /-- After `wg.Done()`. -/
  | finished
  deriving DecidableEq

/-- The threads of a flow. -/
inductive Thread where
  | main
  | task1
  | task2
  deriving DecidableEq

/-- The variables of a flow.  `slot1` and `slot2` are the two result pointers
    (`artistsAllTime`, `artistsShortTime`), `calls` counts the `get...` calls
    made so far, `stdout` is what has been printed. -/
structure FlowState (R : Type) where
  main : MainPc
  t1 : TaskPc
  t2 : TaskPc
  wg : Int
  slot1 : Option R
  slot2 : Option R
  requestErr : Option GoError
  calls : Nat
  stdout : String

/-- A flow: what its two `get...` calls return and how it prints. -/
structure Flow (R : Type) where
  get1 : Except GoError R
  get2 : Except GoError R
  present : Option R → Option R → String → String × Option GoPanic

/-- The state on entry of the function. -/
def FlowState.init (R : Type) : FlowState R :=
  { main := .add, t1 := .idle, t2 := .idle, wg := 0, slot1 := none, slot2 := none,
    requestErr := none, calls := 0, stdout := "" }

/-- The process is gone: `log.Fatal` or a panic. -/
def MainPc.dead : MainPc → Bool
  | .fatal _ => true
  | .panicked _ => true
  | _ => false

/-- The function body is over: it returned or the process is gone. -/
def MainPc.terminal : MainPc → Bool
  | .returned => true
  | .fatal _ => true
  | .panicked _ => true
  | _ => false

/-- The function body is past `wg.Wait()`. -/
def MainPc.pastWait : MainPc → Bool
  | .add => false
  | .go1 => false
  | .go2 => false
  | .wait => false
  | _ => true

/-- One step of the function body. -/
def Flow.stepMain {R : Type} (f : Flow R) (s : FlowState R) : Option (FlowState R) :=
  match s.main with
  | .add => some { s with main := .go1, wg := s.wg + 2 }
  | .go1 => some { s with main := .go2, t1 := .ready }
  | .go2 => some { s with main := .wait, t2 := .ready }
  | .wait => if s.wg = 0 then some { s with main := .check } else none
  | .check =>
      match s.requestErr with
      | some err => some { s with main := .fatal err }
      | none => some { s with main := .print }
  | .print =>
      match f.present s.slot1 s.slot2 s.stdout with
      | (out, none) => some { s with main := .returned, stdout := out }
      | (out, some p) => some { s with main := .panicked p, stdout := out }
  | .returned => none
  | .fatal _ => none
  | .panicked _ => none

/-- The call `wg.Done()`: the counter goes down by one; below zero it panics. -/
def wgDone {R : Type} (s : FlowState R) : FlowState R :=
  if s.wg - 1 < 0 then { s with main := .panicked .negativeWaitGroup, wg := s.wg - 1 }
  else { s with wg := s.wg - 1 }

/-- One step of the first goroutine. -/
def Flow.stepTask1 {R : Type} (f : Flow R) (s : FlowState R) : Option (FlowState R) :=
  if s.main.dead then none else
  match s.t1 with
  | .idle => none
  | .ready => some { s with t1 := .got, calls := s.calls + 1 }
  | .got =>
      match f.get1 with
      | .error err => some { s with t1 := .stored, requestErr := some err }
      | .ok body => some { s with t1 := .stored, slot1 := some body }
  | .stored => some (wgDone { s with t1 := .finished })
  | .finished => none

/-- One step of the second goroutine. -/
def Flow.stepTask2 {R : Type} (f : Flow R) (s : FlowState R) : Option (FlowState R) :=
  if s.main.dead then none else
  match s.t2 with
  | .idle => none
  | .ready => some { s with t2 := .got, calls := s.calls + 1 }
  | .got =>
      match f.get2 with
      | .error err => some { s with t2 := .stored, requestErr := some err }
      | .ok body => some { s with t2 := .stored, slot2 := some body }
  | .stored => some (wgDone { s with t2 := .finished })
  | .finished => none

/-- One step of the thread the scheduler picks; `none` when that thread cannot
    move (blocked in `wg.Wait()`, not started, or over). -/
def Flow.step {R : Type} (f : Flow R) : Thread → FlowState R → Option (FlowState R)
  | .main, s => f.stepMain s
  | .task1, s => f.stepTask1 s
  | .task2, s => f.stepTask2 s

/-- The state a schedule leads to, `none` when it picks a thread that cannot
    move. -/
def Flow.exec {R : Type} (f : Flow R) : List Thread → FlowState R → Option (FlowState R)
  | [], s => some s
  | th :: rest, s =>
      match f.step th s with
      | none => none
      | some s1 => f.exec rest s1

/-- The fan-out of `handleArtists`, for given results of `getArtistsAllTime`
    and `getArtistsShortTime`. -/
def artistsFlow (allTime shortTime : Except GoError spotifyArtistResponse) :
    Flow spotifyArtistResponse :=
  { get1 := allTime, get2 := shortTime, present := printArtists }

/-- The fan-out of `handleTracks`, for given results of `getTracksAllTime` and
    `getTracksShortTime`. -/
def tracksFlow (allTime shortTime : Except GoError spotifyTrackResponse) :
    Flow spotifyTrackResponse :=
  { get1 := allTime, get2 := shortTime, present := printTracks }

/-- The function `handleArtists` of `main.go`. -/
def handleArtists (client : Client) : Flow spotifyArtistResponse :=
  artistsFlow (getArtistsAllTime client) (getArtistsShortTime client)

/-- The function `handleTracks` of `main.go`. -/
def handleTracks (client : Client) : Flow spotifyTrackResponse :=
  tracksFlow (getTracksAllTime client) (getTracksShortTime client)

/-- The schedule that runs the function body up to `wg.Wait()`, then the first
    goroutine, then the second, then the rest of the body. -/
def inOrder : List Thread :=
  [.main, .main, .main, .task1, .task1, .task1, .task2, .task2, .task2,
   .main, .main, .main]

/-- A schedule in which the second goroutine runs to its end before the first
    one starts its call. -/
def secondFirst : List Thread :=
  [.main, .main, .main, .task2, .task2, .task2, .task1, .task1, .task1,
   .main, .main, .main]

/-! ## Invariant of a flow -/

/-- A `get...` call returned an error. -/
def failed {R : Type} : Except GoError R → Bool
  | .error _ => true
  | .ok _ => false

/-- One for a goroutine that is over, zero otherwise. -/
def TaskPc.fin : TaskPc → Int
  | .finished => 1
  | _ => 0

/-- One for a goroutine that has made its call, zero otherwise. -/
def TaskPc.called : TaskPc → Nat
  | .idle => 0
  | .ready => 0
  | _ => 1

/-- The goroutine has written its result or its error. -/
def TaskPc.wrote : TaskPc → Bool
  | .stored => true
  | .finished => true
  | _ => false

/-- The function body is past the test of `requestErr` without `log.Fatal`. -/
def MainPc.passed : MainPc → Bool
  | .print => true
  | .returned => true
  | .panicked _ => true
  | _ => false

/-- The result a goroutine leaves in its result variable. -/
def slotOf {R : Type} (pc : TaskPc) (r : Except GoError R) : Option R :=
  match pc.wrote, r with
  | true, .ok body => some body
  | _, _ => none

/-- What holds in every state a flow can reach. -/
structure Inv {R : Type} (f : Flow R) (s : FlowState R) : Prop where
  control : match s.main with
    | .add => s.t1 = .idle ∧ s.t2 = .idle ∧ s.wg = 0
    | .go1 => s.t1 = .idle ∧ s.t2 = .idle ∧ s.wg = 2
    | .go2 => s.t1 ≠ .idle ∧ s.t2 = .idle ∧ s.wg = 2 - s.t1.fin
    | .wait => s.t1 ≠ .idle ∧ s.t2 ≠ .idle ∧ s.wg = 2 - s.t1.fin - s.t2.fin
    | _ => s.t1 = .finished ∧ s.t2 = .finished ∧ s.wg = 0
  calls : s.calls = s.t1.called + s.t2.called
  slot1 : s.slot1 = slotOf s.t1 f.get1
  slot2 : s.slot2 = slotOf s.t2 f.get2
  err : s.requestErr.isSome = ((s.t1.wrote && failed f.get1) || (s.t2.wrote && failed f.get2))
  quiet : s.main ≠ .returned → (∀ p, s.main ≠ .panicked p) → s.stdout = ""
  ret : s.main = .returned → f.present s.slot1 s.slot2 "" = (s.stdout, none)
  pan : ∀ p, s.main = .panicked p → f.present s.slot1 s.slot2 "" = (s.stdout, some p)
  fat : ∀ e, s.main = .fatal e → s.requestErr = some e
  src : ∀ e, s.requestErr = some e →
    (s.t1.wrote = true ∧ f.get1 = .error e) ∨ (s.t2.wrote = true ∧ f.get2 = .error e)
  pass : s.main.passed = true → s.requestErr = none

/-! ## Progress of a flow -/

/-- Steps the function body still has to make, at most. -/
def MainPc.rank : MainPc → Nat
  | .add => 6
  | .go1 => 5
  | .go2 => 4
  | .wait => 3
  | .check => 2
  | .print => 1
  | _ => 0

/-- Steps a goroutine still has to make. -/
def TaskPc.rank : TaskPc → Nat
  | .idle => 3
  | .ready => 3
  | .got => 2
  | .stored => 1
  | .finished => 0

/-- Steps a flow still has to make, at most. -/
def FlowState.rank {R : Type} (s : FlowState R) : Nat :=
  s.main.rank + s.t1.rank + s.t2.rank

/-- The goroutine is started and not over. -/
def TaskPc.running : TaskPc → Bool
  | .ready => true
  | .got => true
  | .stored => true
  | _ => false

/-! ## Ranked lists (specification side) -/

/-- The text of a list of printed lines. -/
def concatLines : List String → String
  | [] => ""
  | l :: ls => l ++ concatLines ls

/-- The lines `<i>. <entry>` of a ranked list whose first rank is `i`. -/
def rankedLines : Nat → List String → List String
  | _, [] => []
  | i, e :: es => (toString i ++ ". " ++ e ++ "\n") :: rankedLines (i + 1) es

/-- What the line of a track shows after its rank: `<name> - <first artist>`. -/
def trackEntry (track : TrackItem) : String :=
  match track.Artists with
  | [] => track.Name ++ " - "
  | first :: _ => track.Name ++ " - " ++ first.Name

/-- A track result with every track cut down to its first artist. -/
def firstArtistOnly (r : spotifyTrackResponse) : spotifyTrackResponse :=
  { Items := r.Items.map fun track => { track with Artists := track.Artists.take 1 } }

/-! ## The join of a flow (specification side) -/

/-- The fan-in of a flow, at a state `s`: the function body looks at the
    results only when both goroutines are over and both calls are made; a
    started goroutine can always move on while the process lives, whatever the
    other one did; some thread can move until the function body is over; and
    the run can be completed, with both calls made. -/
def JoinBarrier {R : Type} (f : Flow R) (s : FlowState R) : Prop :=
  (s.main.pastWait = true → s.t1 = .finished ∧ s.t2 = .finished ∧ s.calls = 2) ∧
  (s.t1.running = true → s.main.dead = false ∧ (f.step .task1 s).isSome = true) ∧
  (s.t2.running = true → s.main.dead = false ∧ (f.step .task2 s).isSome = true) ∧
  (s.main.terminal = false → ∃ th s1, f.step th s = some s1) ∧
  (∃ rest s1, f.exec rest s = some s1 ∧ s1.main.terminal = true ∧
    s1.t1 = .finished ∧ s1.t2 = .finished ∧ s1.calls = 2)

/-- The state a schedule leads to from the entry of the function (the entry
    state itself when the schedule is not a run). -/
def Flow.run {R : Type} (f : Flow R) (sched : List Thread) : FlowState R :=
  (f.exec sched (FlowState.init R)).getD (FlowState.init R)

/-! ## Fixtures -/

/-- A `200 OK` response whose body is the bytes of the given text. -/
def okResponse (body : String) : Response :=
  { StatusCode := 200, Status := "200 OK", Body := .ok (goBytes body) }

/-- A server that answers every request with `200 OK` and the same body. -/
def constClient (body : String) : Client :=
  { spotifyKey := "token", urlError := fun _ => none, Do := fun _ => .ok (okResponse body) }

/-- A server with fixed answers: the artists A, B, C for `long_term` and X, Y
    for `short_term`; two tracks for `long_term`, one for `short_term`. -/
def fixtureClient : Client :=
  { spotifyKey := "token"
    urlError := fun _ => none
    Do := fun req =>
      if req.URL = artistFullUrl longTerm then
        .ok (okResponse
          "\x7b\"items\":[\x7b\"name\":\"A\"\x7d,\x7b\"name\":\"B\"\x7d,\x7b\"name\":\"C\"\x7d]\x7d")
      else if req.URL = artistFullUrl shortTerm then
        .ok (okResponse "\x7b\"items\":[\x7b\"name\":\"X\"\x7d,\x7b\"name\":\"Y\"\x7d]\x7d")
      else if req.URL = trackFullUrl longTerm then
        .ok (okResponse
          ("\x7b\"items\":[\x7b\"name\":\"S\",\"artists\":[\x7b\"name\":\"P\"\x7d,\x7b\"name\":\"Q\"\x7d]\x7d," ++
           "\x7b\"name\":\"T\",\"artists\":[\x7b\"name\":\"R\"\x7d]\x7d]\x7d"))
      else
        .ok (okResponse "\x7b\"items\":[\x7b\"name\":\"U\",\"artists\":[\x7b\"name\":\"P\"\x7d]\x7d]\x7d") }

/-- The fixture server, except that every `long_term` request is answered
    `401 Unauthorized`. -/
def failingClient : Client :=
  { fixtureClient with
    Do := fun req =>
      if req.URL = artistFullUrl longTerm ∨ req.URL = trackFullUrl longTerm then
        .ok { StatusCode := 401, Status := "401 Unauthorized", Body := .ok [] }
      else fixtureClient.Do req }

/-- The fixture server, except that the `short_term` tracks are one track
    with an artist followed by one without any. -/
def noArtistClient : Client :=
  { fixtureClient with
    Do := fun req =>
      if req.URL = trackFullUrl shortTerm then
        .ok (okResponse
          ("\x7b\"items\":[\x7b\"name\":\"U\",\"artists\":[\x7b\"name\":\"P\"\x7d]\x7d," ++
           "\x7b\"name\":\"V\",\"artists\":[]\x7d,\x7b\"name\":\"W\",\"artists\":[\x7b\"name\":\"P\"\x7d]\x7d]\x7d"))
      else fixtureClient.Do req }

/-- The fixture server, except that the `long_term` tracks are one track
    without any artist; the `short_term` track U has its artist P. -/
def noArtistFirstClient : Client :=
  { fixtureClient with
    Do := fun req =>
      if req.URL = trackFullUrl longTerm then
        .ok (okResponse "\x7b\"items\":[\x7b\"name\":\"V\",\"artists\":[]\x7d]\x7d")
      else fixtureClient.Do req }

/-- A schedule in which the first goroutine is over before the second one
    starts its call, and the function body ends in `log.Fatal`. -/
def firstFailsFirst : List Thread :=
  [.main, .main, .main, .task1, .task1, .task1, .task2, .task2, .task2, .main, .main]

/-! ## Decode errors (specification side) -/

/-- A JSON value is a sequence. -/
def JSON.isArr : JSON → Bool
  | .arr _ => true
  | _ => false

/-- A JSON value is `null`. -/
def JSON.isNull : JSON → Bool
  | .null => true
  | _ => false

/-- A JSON value is an object. -/
def JSON.isObj : JSON → Bool
  | .obj _ => true
  | _ => false

/-- A recorded error, if any, is an `UnmarshalTypeError`. -/
def typeErrorOnly (saved : Option GoError) : Prop :=
  ∀ e, saved = some e → ∃ v, e = .jsonUnmarshalType v

mutual
/-- Every number of a JSON value is within the range of a `float64`. -/
def JSON.inFloatRange : JSON → Bool
  | .null => true
  | .bool _ => true
  | .str _ => true
  | .num lit => float64InRange lit
  | .arr xs => JSON.inFloatRangeList xs
  | .obj kvs => JSON.inFloatRangeMembers kvs
/-- The same, of every element of an array. -/
def JSON.inFloatRangeList : List JSON → Bool
  | [] => true
  | x :: xs => JSON.inFloatRange x && JSON.inFloatRangeList xs
/-- The same, of every member of an object. -/
def JSON.inFloatRangeMembers : List (String × JSON) → Bool
  | [] => true
  | (_, x) :: kvs => JSON.inFloatRange x && JSON.inFloatRangeMembers kvs
end

/-- The type of the field a member key names: the field whose tag is the key,
    else the first field whose tag is the key up to letter case; `none` when
    the key names no field. -/
def fieldFor (fields : List (String × String × GoType)) (key : String) : Option GoType :=
  match fields.find? (fun f => f.2.1 = key) with
  | some f => some f.2.2
  | none => (fields.find? (fun f => equalFold f.2.1 key)).map (fun f => f.2.2)

mutual
/-- A JSON value structurally matches a Go type.  `null` matches every type.
    A string field takes a string, a boolean field `true` or `false`, an
    integer field a number written without fraction and exponent that fits 64
    bits, a slice a sequence all of whose elements match the element type, a
    struct an object every member of which either names no field or matches
    the type of the field it names (so a missing member is no mismatch), and
    an `interface{}` any value whose numbers are in the range of a
    `float64`. -/
def matchesShape : GoType → JSON → Bool
  | _, .null => true
  | .bool, .bool _ => true
  | .iface, .bool _ => true
  | _, .bool _ => false
  | .string, .str _ => true
  | .iface, .str _ => true
  | _, .str _ => false
  | .int, .num lit => (parseInt64 lit).isSome
  | .iface, .num lit => float64InRange lit
  | _, .num _ => false
  | .slice elem, .arr xs => matchesShapeAll elem xs
  | .iface, .arr xs => JSON.inFloatRangeList xs
  | _, .arr _ => false
  | .struct fields, .obj kvs => matchesShapeMembers fields kvs
  | .iface, .obj kvs => JSON.inFloatRangeMembers kvs
  | _, .obj _ => false
/-- Every element of a sequence matches the element type. -/
def matchesShapeAll : GoType → List JSON → Bool
  | _, [] => true
  | elem, x :: xs => matchesShape elem x && matchesShapeAll elem xs
/-- Every member of an object names no field or matches the type of the field
    it names. -/
def matchesShapeMembers : List (String × String × GoType) → List (String × JSON) → Bool
  | _, [] => true
  | fields, (key, x) :: kvs =>
      (match fieldFor fields key with
        | none => true
        | some t => matchesShape t x) && matchesShapeMembers fields kvs
end

/-- The `items` field is missing or `null`: the value is `null`, or an object
    none of whose members named `items` (in any letter case) has a value other
    than `null`. -/
def JSON.itemsMissing : JSON → Bool
  | .null => true
  | .obj kvs => kvs.all fun kv => !equalFold "items" kv.1 || kv.2.isNull
  | _ => false

/-- What a request function does with the bytes of a `200` response, `t` being
    the declared type of the result, `result` what the function returns and
    `empty` the result without items.  Bytes that are not valid JSON give a
    syntax error; valid JSON that does not match the shape of `t` gives a type
    error, in particular a top-level value that is neither an object nor
    `null`, and an object with a member named `items` (in any letter case)
    that is neither a sequence nor `null`; a result is returned exactly for
    valid JSON that matches the shape of `t`; and such a body in which `items`
    is missing or `null` gives the result without items. -/
def DecodeContract {R : Type} (t : GoType) (empty : R) (bytes : List Nat)
    (result : Except GoError R) : Prop :=
  (parseJSON bytes = none → result = .error .jsonSyntax) ∧
  (∀ j, parseJSON bytes = some j → matchesShape t j = false →
    ∃ val, result = .error (.jsonUnmarshalType val)) ∧
  (∀ j, parseJSON bytes = some j → j.isNull = false → j.isObj = false →
    ∃ val, result = .error (.jsonUnmarshalType val)) ∧
  (∀ kvs key v, parseJSON bytes = some (.obj kvs) → (key, v) ∈ kvs →
    equalFold "items" key = true → v.isNull = false → v.isArr = false →
    ∃ val, result = .error (.jsonUnmarshalType val)) ∧
  ((∃ r, result = .ok r) ↔ ∃ j, parseJSON bytes = some j ∧ matchesShape t j = true) ∧
  (∀ j, parseJSON bytes = some j → matchesShape t j = true → j.itemsMissing = true →
    result = .ok empty)

/-! ## The invariant holds -/

theorem inv_init {R : Type} (f : Flow R) : Inv f (FlowState.init R) := by
  constructor <;> simp [FlowState.init, TaskPc.called, slotOf, TaskPc.wrote, MainPc.passed]

theorem inv_stepMain {R : Type} (f : Flow R) (s s1 : FlowState R)
    (h : Inv f s) (hs : f.stepMain s = some s1) : Inv f s1 := by
  obtain ⟨main, t1, t2, wg, slot1, slot2, requestErr, calls, out⟩ := s
  obtain ⟨hc, hcalls, hs1, hs2, herr, hq, hret, hpan, hfat, hsrc, hpass⟩ := h
  simp only [Flow.stepMain] at hs
  cases main <;> simp at hs hc
  · subst hs; constructor <;> simp_all [TaskPc.fin, MainPc.passed]
  · subst hs; constructor <;> simp_all [TaskPc.fin, TaskPc.called, slotOf, TaskPc.wrote, MainPc.passed]
  · subst hs; constructor <;> simp_all [TaskPc.fin, TaskPc.called, slotOf, TaskPc.wrote, MainPc.passed]
  · obtain ⟨hw, hs⟩ := hs
    subst hs
    have h1 : t1 = .finished ∧ t2 = .finished := by
      obtain ⟨_, _, h3⟩ := hc
      cases t1 <;> cases t2 <;> simp_all [TaskPc.fin]
    constructor <;> simp_all [TaskPc.fin, MainPc.passed]
  · cases hre : requestErr with
    | none =>
      simp [hre] at hs; subst hs
      constructor <;> simp_all [MainPc.passed]
    | some e =>
      simp [hre] at hs; subst hs
      constructor <;> simp_all [MainPc.passed]
  · have hout : out = "" := by simp_all
    subst hout
    cases hp : f.present slot1 slot2 "" with
    | mk o p =>
      cases p with
      | none =>
        simp [hp] at hs; subst hs
        constructor <;> simp_all [MainPc.passed]
      | some p =>
        simp [hp] at hs; subst hs
        constructor <;> simp_all [MainPc.passed]

set_option maxHeartbeats 4000000 in
theorem inv_stepTask1 {R : Type} (f : Flow R) (s s1 : FlowState R)
    (h : Inv f s) (hs : f.stepTask1 s = some s1) : Inv f s1 := by
  obtain ⟨main, t1, t2, wg, slot1, slot2, requestErr, calls, out⟩ := s
  obtain ⟨hc, hcalls, hs1, hs2, herr, hq, hret, hpan, hfat, hsrc, hpass⟩ := h
  simp only [Flow.stepTask1] at hs
  cases t1 <;> simp at hs
  · -- the call
    obtain ⟨hd, hs⟩ := hs
    subst hs
    cases main <;> simp at hc <;> cases t2 <;> constructor <;>
      simp_all [MainPc.dead, MainPc.passed, TaskPc.fin, TaskPc.called, slotOf, TaskPc.wrote]
  · -- the write
    obtain ⟨hd, hs⟩ := hs
    cases hg : f.get1 with
    | error e =>
      simp [hg] at hs; subst hs
      cases main <;> simp at hc <;> cases t2 <;> constructor <;>
        simp_all [MainPc.dead, MainPc.passed, TaskPc.fin, TaskPc.called, slotOf,
          TaskPc.wrote, failed]
    | ok b =>
      simp [hg] at hs; subst hs
      cases main <;> simp at hc <;> cases t2 <;> constructor <;>
        simp_all [MainPc.dead, MainPc.passed, TaskPc.fin, TaskPc.called, slotOf,
          TaskPc.wrote, failed]
  · -- the call of Done
    obtain ⟨hd, hs⟩ := hs
    subst hs
    cases main <;> simp at hc <;> cases t2 <;> constructor <;>
      simp_all [MainPc.dead, MainPc.passed, TaskPc.fin, TaskPc.called, slotOf, TaskPc.wrote,
        wgDone]

set_option maxHeartbeats 4000000 in
theorem inv_stepTask2 {R : Type} (f : Flow R) (s s1 : FlowState R)
    (h : Inv f s) (hs : f.stepTask2 s = some s1) : Inv f s1 := by
  obtain ⟨main, t1, t2, wg, slot1, slot2, requestErr, calls, out⟩ := s
  obtain ⟨hc, hcalls, hs1, hs2, herr, hq, hret, hpan, hfat, hsrc, hpass⟩ := h
  simp only [Flow.stepTask2] at hs
  cases t2 <;> simp at hs
  · -- the call
    obtain ⟨hd, hs⟩ := hs
    subst hs
    cases main <;> simp at hc <;> cases t1 <;> constructor <;>
      simp_all [MainPc.dead, MainPc.passed, TaskPc.fin, TaskPc.called, slotOf, TaskPc.wrote]
  · -- the write
    obtain ⟨hd, hs⟩ := hs
    cases hg : f.get2 with
    | error e =>
      simp [hg] at hs; subst hs
      cases main <;> simp at hc <;> cases t1 <;> constructor <;>
        simp_all [MainPc.dead, MainPc.passed, TaskPc.fin, TaskPc.called, slotOf,
          TaskPc.wrote, failed]
    | ok b =>
      simp [hg] at hs; subst hs
      cases main <;> simp at hc <;> cases t1 <;> constructor <;>
        simp_all [MainPc.dead, MainPc.passed, TaskPc.fin, TaskPc.called, slotOf,
          TaskPc.wrote, failed]
  · -- the call of Done
    obtain ⟨hd, hs⟩ := hs
    subst hs
    cases main <;> simp at hc <;> cases t1 <;> constructor <;>
      simp_all [MainPc.dead, MainPc.passed, TaskPc.fin, TaskPc.called, slotOf, TaskPc.wrote,
        wgDone]

theorem inv_step {R : Type} (f : Flow R) (th : Thread) (s s1 : FlowState R)
    (h : Inv f s) (hs : f.step th s = some s1) : Inv f s1 := by
  cases th
  · exact inv_stepMain f s s1 h hs
  · exact inv_stepTask1 f s s1 h hs
  · exact inv_stepTask2 f s s1 h hs

theorem inv_exec {R : Type} (f : Flow R) (sched : List Thread) :
    ∀ s s1 : FlowState R, Inv f s → f.exec sched s = some s1 → Inv f s1 := by
  induction sched with
  | nil =>
    intro s s1 h hs
    simp [Flow.exec] at hs
    exact hs ▸ h
  | cons th rest ih =>
    intro s s1 h hs
    simp only [Flow.exec] at hs
    cases hst : f.step th s with
    | none => simp [hst] at hs
    | some s2 =>
      simp [hst] at hs
      exact ih s2 s1 (inv_step f th s s2 h hst) hs

theorem inv_reach {R : Type} (f : Flow R) (sched : List Thread) (s : FlowState R)
    (hs : f.exec sched (FlowState.init R) = some s) : Inv f s :=
  inv_exec f sched _ s (inv_init f) hs

/-! ## Every run of a flow ends -/

theorem rank_step {R : Type} (f : Flow R) (th : Thread) (s s1 : FlowState R)
    (h : Inv f s) (hs : f.step th s = some s1) : s1.rank < s.rank := by
  obtain ⟨main, t1, t2, wg, slot1, slot2, requestErr, calls, out⟩ := s
  obtain ⟨hc, -⟩ := h
  cases th
  · simp only [Flow.step, Flow.stepMain] at hs
    cases main <;> simp at hs hc
    · subst hs; simp [FlowState.rank, MainPc.rank]
    · subst hs; simp [hc, FlowState.rank, MainPc.rank, TaskPc.rank]
    · subst hs; simp [hc, FlowState.rank, MainPc.rank, TaskPc.rank]
    · obtain ⟨_, hs⟩ := hs; subst hs; simp [FlowState.rank, MainPc.rank]
    · cases requestErr <;> simp at hs <;> subst hs <;> simp [FlowState.rank, MainPc.rank]
    · cases hp : f.present slot1 slot2 out with
      | mk o p =>
        cases p <;> simp [hp] at hs <;> subst hs <;> simp [FlowState.rank, MainPc.rank]
  · simp only [Flow.step, Flow.stepTask1] at hs
    cases t1 <;> simp at hs
    · obtain ⟨_, hs⟩ := hs; subst hs; simp [FlowState.rank, TaskPc.rank]
    · obtain ⟨_, hs⟩ := hs
      cases hg : f.get1 <;> simp [hg] at hs <;> subst hs <;> simp [FlowState.rank, TaskPc.rank]
    · obtain ⟨_, hs⟩ := hs; subst hs
      simp only [wgDone]
      split <;> simp [FlowState.rank, TaskPc.rank, MainPc.rank]
  · simp only [Flow.step, Flow.stepTask2] at hs
    cases t2 <;> simp at hs
    · obtain ⟨_, hs⟩ := hs; subst hs; simp [FlowState.rank, TaskPc.rank]
    · obtain ⟨_, hs⟩ := hs
      cases hg : f.get2 <;> simp [hg] at hs <;> subst hs <;> simp [FlowState.rank, TaskPc.rank]
    · obtain ⟨_, hs⟩ := hs; subst hs
      simp only [wgDone]
      split <;> simp [FlowState.rank, TaskPc.rank, MainPc.rank]
      omega

theorem rank_exec {R : Type} (f : Flow R) (sched : List Thread) :
    ∀ s s1 : FlowState R, Inv f s → f.exec sched s = some s1 →
      s1.rank + sched.length ≤ s.rank := by
  induction sched with
  | nil =>
    intro s s1 _ hs
    simp [Flow.exec] at hs
    simp [hs]
  | cons th rest ih =>
    intro s s1 h hs
    simp only [Flow.exec] at hs
    cases hst : f.step th s with
    | none => simp [hst] at hs
    | some s2 =>
      simp [hst] at hs
      have h1 := ih s2 s1 (inv_step f th s s2 h hst) hs
      have h2 := rank_step f th s s2 h hst
      simp only [List.length_cons]
      omega

theorem exec_append {R : Type} (f : Flow R) (xs ys : List Thread) :
    ∀ s s1 : FlowState R, f.exec xs s = some s1 → f.exec (xs ++ ys) s = f.exec ys s1 := by
  induction xs with
  | nil =>
    intro s s1 hs
    simp [Flow.exec] at hs
    simp [hs]
  | cons th rest ih =>
    intro s s1 hs
    simp only [Flow.exec, List.cons_append] at hs ⊢
    cases hst : f.step th s with
    | none => simp [hst] at hs
    | some s2 =>
      simp [hst] at hs ⊢
      exact ih s2 s1 hs

/-- A started goroutine that is not over can move as long as the process
    lives, whatever the other goroutine has done. -/
theorem task1_enabled {R : Type} (f : Flow R) (s : FlowState R)
    (hd : s.main.dead = false) (hr : s.t1.running = true) :
    (f.step .task1 s).isSome = true := by
  obtain ⟨main, t1, t2, wg, slot1, slot2, requestErr, calls, out⟩ := s
  simp only [Flow.step, Flow.stepTask1]
  simp at hd hr
  cases t1 <;> simp [TaskPc.running] at hr <;> simp [hd]
  cases f.get1 <;> simp

theorem task2_enabled {R : Type} (f : Flow R) (s : FlowState R)
    (hd : s.main.dead = false) (hr : s.t2.running = true) :
    (f.step .task2 s).isSome = true := by
  obtain ⟨main, t1, t2, wg, slot1, slot2, requestErr, calls, out⟩ := s
  simp only [Flow.step, Flow.stepTask2]
  simp at hd hr
  cases t2 <;> simp [TaskPc.running] at hr <;> simp [hd]
  cases f.get2 <;> simp

/-- No deadlock: in a reachable state that is not final some thread can move. -/
theorem some_enabled {R : Type} (f : Flow R) (s : FlowState R) (h : Inv f s)
    (ht : s.main.terminal = false) : ∃ th s1, f.step th s = some s1 := by
  by_cases h1 : s.t1.running = true
  · have hd : s.main.dead = false := by
      cases hm : s.main <;> simp_all [MainPc.dead, MainPc.terminal]
    have := task1_enabled f s hd h1
    exact ⟨.task1, Option.isSome_iff_exists.mp this |>.choose, (Option.isSome_iff_exists.mp this).choose_spec⟩
  · by_cases h2 : s.t2.running = true
    · have hd : s.main.dead = false := by
        cases hm : s.main <;> simp_all [MainPc.dead, MainPc.terminal]
      have := task2_enabled f s hd h2
      exact ⟨.task2, Option.isSome_iff_exists.mp this |>.choose, (Option.isSome_iff_exists.mp this).choose_spec⟩
    · refine ⟨.main, ?_⟩
      obtain ⟨main, t1, t2, wg, slot1, slot2, requestErr, calls, out⟩ := s
      obtain ⟨hc, -⟩ := h
      simp only [Flow.step, Flow.stepMain]
      simp at h1 h2 ht hc
      cases main <;> simp [MainPc.terminal] at ht hc ⊢
      · cases t1 <;> cases t2 <;> simp_all [TaskPc.running, TaskPc.fin]
      · cases requestErr <;> simp
      · cases hp : f.present slot1 slot2 out with
        | mk o p => cases p <;> simp

/-- Every reachable state can be run on to a final one. -/
theorem completes {R : Type} (f : Flow R) :
    ∀ (n : Nat) (s : FlowState R), s.rank ≤ n → Inv f s →
      ∃ rest s1, f.exec rest s = some s1 ∧ s1.main.terminal = true := by
  intro n
  induction n with
  | zero =>
    intro s hn h
    by_cases ht : s.main.terminal = true
    · exact ⟨[], s, rfl, ht⟩
    · simp at ht
      obtain ⟨th, s1, hs⟩ := some_enabled f s h ht
      have := rank_step f th s s1 h hs
      omega
  | succ n ih =>
    intro s hn h
    by_cases ht : s.main.terminal = true
    · exact ⟨[], s, rfl, ht⟩
    · simp at ht
      obtain ⟨th, s1, hs⟩ := some_enabled f s h ht
      have hr := rank_step f th s s1 h hs
      obtain ⟨rest, s2, he, ht2⟩ := ih s1 (by omega) (inv_step f th s s1 h hs)
      refine ⟨th :: rest, s2, ?_, ht2⟩
      simp [Flow.exec, hs, he]

/-- What a final state of a flow looks like. -/
theorem final_state {R : Type} (f : Flow R) (s : FlowState R) (h : Inv f s)
    (ht : s.main.terminal = true) :
    s.t1 = .finished ∧ s.t2 = .finished ∧ s.calls = 2 ∧
    ((failed f.get1 = true ∨ failed f.get2 = true) →
      ∃ e, s.main = .fatal e ∧ s.stdout = "" ∧ (f.get1 = .error e ∨ f.get2 = .error e)) ∧
    (∀ a b, f.get1 = .ok a → f.get2 = .ok b →
      (s.main = .returned ∧ f.present (some a) (some b) "" = (s.stdout, none)) ∨
      (∃ p, s.main = .panicked p ∧ f.present (some a) (some b) "" = (s.stdout, some p))) := by
  obtain ⟨main, t1, t2, wg, slot1, slot2, requestErr, calls, out⟩ := s
  obtain ⟨hc, hcalls, hs1, hs2, herr, hq, hret, hpan, hfat, hsrc, hpass⟩ := h
  simp only at ht hc hcalls hs1 hs2 herr hq hret hpan hfat hsrc hpass ⊢
  have hfin : t1 = .finished ∧ t2 = .finished := by
    cases main <;> simp [MainPc.terminal] at ht <;> exact ⟨hc.1, hc.2.1⟩
  obtain ⟨h1, h2⟩ := hfin
  subst h1 h2
  refine ⟨rfl, rfl, by simp [hcalls, TaskPc.called], ?_, ?_⟩
  · intro hf
    have hsome : requestErr.isSome = true := by
      rw [herr]
      rcases hf with hf | hf <;> simp [hf, TaskPc.wrote]
    cases main <;> simp [MainPc.terminal] at ht
    · -- returned: the check let it through, so `requestErr` was `nil`
      have := hpass rfl
      simp [this] at hsome
    · rename_i e
      have he := hfat e rfl
      refine ⟨e, rfl, hq (by simp) (by simp), ?_⟩
      rcases hsrc e he with ⟨-, h3⟩ | ⟨-, h3⟩
      · exact Or.inl h3
      · exact Or.inr h3
    · have := hpass rfl
      simp [this] at hsome
  · intro a b ha hb
    have hnone : requestErr = none := by
      cases hre : requestErr with
      | none => rfl
      | some e =>
        rcases hsrc e hre with ⟨-, h3⟩ | ⟨-, h3⟩
        · simp [ha] at h3
        · simp [hb] at h3
    cases main <;> simp [MainPc.terminal] at ht
    · left
      have := hret rfl
      simpa [hs1, hs2, slotOf, TaskPc.wrote, ha, hb] using this
    · rename_i e
      have := hfat e rfl
      simp [hnone] at this
    · rename_i p
      right
      have := hpan p rfl
      exact ⟨p, rfl, by simpa [hs1, hs2, slotOf, TaskPc.wrote, ha, hb] using this⟩

/-! ## What is printed -/

theorem rankedLines_length (i : Nat) (es : List String) :
    (rankedLines i es).length = es.length := by
  induction es generalizing i with
  | nil => rfl
  | cons e es ih => simp [rankedLines, ih]

theorem rankedLines_get (es : List String) :
    ∀ (i k : Nat) (e : String), es[k]? = some e →
      (rankedLines i es)[k]? = some (toString (i + k) ++ ". " ++ e ++ "\n") := by
  induction es with
  | nil => intro i k e h; simp at h
  | cons x xs ih =>
    intro i k e h
    cases k with
    | zero =>
      simp at h
      simp [rankedLines, h]
    | succ k =>
      simp at h
      have := ih (i + 1) k e h
      have hik : i + 1 + k = i + (k + 1) := by omega
      simp only [rankedLines, List.getElem?_cons_succ]
      rw [this, hik]

theorem concatLines_append (xs ys : List String) :
    concatLines (xs ++ ys) = concatLines xs ++ concatLines ys := by
  induction xs with
  | nil => simp [concatLines]
  | cons x xs ih => simp [concatLines, ih, String.append_assoc]

theorem rangeArtists_eq (items : List ArtistItem) :
    ∀ (i : Nat) (out : String),
      rangeArtists i items out =
        out ++ concatLines (rankedLines (i + 1) (items.map fun artist => artist.Name)) := by
  induction items with
  | nil => intro i out; simp [rangeArtists, rankedLines, concatLines]
  | cons x xs ih =>
    intro i out
    simp only [rangeArtists, List.map_cons, rankedLines, concatLines]
    rw [ih, String.append_assoc]

theorem rangeTracks_ok (items : List TrackItem) :
    ∀ (i : Nat) (out : String), (∀ t ∈ items, t.Artists ≠ []) →
      rangeTracks i items out =
        (out ++ concatLines (rankedLines (i + 1) (items.map trackEntry)), none) := by
  induction items with
  | nil => intro i out _; simp [rangeTracks, rankedLines, concatLines]
  | cons x xs ih =>
    intro i out h
    have hx : x.Artists ≠ [] := h x (by simp)
    cases hxa : x.Artists with
    | nil => exact absurd hxa hx
    | cons first rest =>
      simp only [rangeTracks, hxa, List.map_cons, rankedLines, concatLines, trackEntry]
      rw [ih (i + 1) _ (fun t ht => h t (by simp [ht])), String.append_assoc]
      simp [String.append_assoc]

theorem rangeTracks_panic (pre : List TrackItem) (t : TrackItem) (post : List TrackItem) :
    ∀ (i : Nat) (out : String), (∀ u ∈ pre, u.Artists ≠ []) → t.Artists = [] →
      rangeTracks i (pre ++ t :: post) out =
        (out ++ concatLines (rankedLines (i + 1) (pre.map trackEntry)),
          some .indexOutOfRange) := by
  induction pre with
  | nil => intro i out _ ht; simp [rangeTracks, ht, rankedLines, concatLines]
  | cons x xs ih =>
    intro i out h ht
    have hx : x.Artists ≠ [] := h x (by simp)
    cases hxa : x.Artists with
    | nil => exact absurd hxa hx
    | cons first rest =>
      rw [List.cons_append]
      simp only [rangeTracks, hxa, List.map_cons, rankedLines, concatLines, trackEntry]
      rw [ih (i + 1) _ (fun u hu => h u (by simp [hu])) ht, String.append_assoc]
      simp [String.append_assoc]

/-- A list with an element satisfying `p` splits at the first such element. -/
theorem split_first {α : Type} (p : α → Prop) [DecidablePred p] (xs : List α)
    (h : ∃ x ∈ xs, p x) :
    ∃ pre t post, xs = pre ++ t :: post ∧ (∀ u ∈ pre, ¬ p u) ∧ p t := by
  induction xs with
  | nil => simp at h
  | cons x xs ih =>
    by_cases hx : p x
    · exact ⟨[], x, xs, rfl, by simp, hx⟩
    · have h2 : ∃ y ∈ xs, p y := by
        obtain ⟨y, hy, hpy⟩ := h
        simp at hy
        rcases hy with rfl | hy
        · exact absurd hpy hx
        · exact ⟨y, hy, hpy⟩
      obtain ⟨pre, t, post, he, hpre, ht⟩ := ih h2
      refine ⟨x :: pre, t, post, by simp [he], ?_, ht⟩
      intro u hu
      simp at hu
      rcases hu with rfl | hu
      · exact hx
      · exact hpre u hu

/-- What `handleArtists` has printed when it is over, both requests having
    succeeded. -/
theorem artists_final (client : Client) (a b : spotifyArtistResponse)
    (sched : List Thread) (s : FlowState spotifyArtistResponse)
    (ha : getArtistsAllTime client = .ok a) (hb : getArtistsShortTime client = .ok b)
    (hs : (handleArtists client).exec sched (FlowState.init _) = some s)
    (ht : s.main.terminal = true) :
    s.main = .returned ∧
    s.stdout = "Top five artists all time:\n" ++
      concatLines (rankedLines 1 (a.Items.map fun artist => artist.Name)) ++
      "\nTop five artists last four weeks:\n" ++
      concatLines (rankedLines 1 (b.Items.map fun artist => artist.Name)) := by
  have hinv := inv_reach _ sched s hs
  obtain ⟨-, -, -, -, hok⟩ := final_state _ s hinv ht
  have h := hok a b ha hb
  have hp : (handleArtists client).present (some a) (some b) "" =
      ("Top five artists all time:\n" ++
        concatLines (rankedLines 1 (a.Items.map fun artist => artist.Name)) ++
        "\nTop five artists last four weeks:\n" ++
        concatLines (rankedLines 1 (b.Items.map fun artist => artist.Name)), none) := by
    simp only [handleArtists, artistsFlow, printArtists, rangeArtists_eq, String.empty_append]
    rfl
  rw [hp] at h
  rcases h with ⟨h1, h2⟩ | ⟨p, -, h2⟩
  · simp at h2
    exact ⟨h1, h2.symm⟩
  · simp at h2

/-- What `printTracks` does on two results. -/
theorem printTracks_cases (a b : spotifyTrackResponse) :
    ((∀ t ∈ a.Items ++ b.Items, t.Artists ≠ []) →
      printTracks (some a) (some b) "" =
        ("Top five trackks all time:\n" ++
          concatLines (rankedLines 1 (a.Items.map trackEntry)) ++
          "\nTop five tracks last four weeks:\n" ++
          concatLines (rankedLines 1 (b.Items.map trackEntry)), none)) ∧
    (∀ pre t post, a.Items = pre ++ t :: post → (∀ u ∈ pre, u.Artists ≠ []) →
      t.Artists = [] →
      printTracks (some a) (some b) "" =
        ("Top five trackks all time:\n" ++
          concatLines (rankedLines 1 (pre.map trackEntry)), some .indexOutOfRange)) ∧
    (∀ pre t post, (∀ u ∈ a.Items, u.Artists ≠ []) → b.Items = pre ++ t :: post →
      (∀ u ∈ pre, u.Artists ≠ []) → t.Artists = [] →
      printTracks (some a) (some b) "" =
        ("Top five trackks all time:\n" ++
          concatLines (rankedLines 1 (a.Items.map trackEntry)) ++
          "\nTop five tracks last four weeks:\n" ++
          concatLines (rankedLines 1 (pre.map trackEntry)), some .indexOutOfRange)) := by
  refine ⟨?_, ?_, ?_⟩
  · intro h
    have ha : ∀ t ∈ a.Items, t.Artists ≠ [] := fun t ht => h t (by simp [ht])
    have hb : ∀ t ∈ b.Items, t.Artists ≠ [] := fun t ht => h t (by simp [ht])
    simp only [printTracks, rangeTracks_ok _ _ _ ha, rangeTracks_ok _ _ _ hb,
      String.empty_append]
    rfl
  · intro pre t post he hpre ht
    simp only [printTracks, he, rangeTracks_panic pre t post _ _ hpre ht, String.empty_append]
    rfl
  · intro pre t post ha he hpre ht
    simp only [printTracks, rangeTracks_ok _ _ _ ha, he,
      rangeTracks_panic pre t post _ _ hpre ht, String.empty_append]
    rfl

/-- The final state of `handleTracks`, both requests having succeeded, is the
    outcome of `printTracks`. -/
theorem tracks_final (client : Client) (a b : spotifyTrackResponse)
    (sched : List Thread) (s : FlowState spotifyTrackResponse)
    (ha : getTracksAllTime client = .ok a) (hb : getTracksShortTime client = .ok b)
    (hs : (handleTracks client).exec sched (FlowState.init _) = some s)
    (ht : s.main.terminal = true) :
    (s.main = .returned ∧ printTracks (some a) (some b) "" = (s.stdout, none)) ∨
    (∃ p, s.main = .panicked p ∧ printTracks (some a) (some b) "" = (s.stdout, some p)) := by
  have hinv := inv_reach _ sched s hs
  obtain ⟨-, -, -, -, hok⟩ := final_state _ s hinv ht
  exact hok a b ha hb

/-- The fan-in property holds in every reachable state. -/
theorem joinBarrier_of_inv {R : Type} (f : Flow R) (s : FlowState R) (h : Inv f s) :
    JoinBarrier f s := by
  have hdead : s.t1.running = true ∨ s.t2.running = true → s.main.dead = false := by
    intro hr
    have hc := h.control
    cases hm : s.main <;> simp [hm, MainPc.dead] at hc ⊢ <;>
      rcases hr with hr | hr <;> simp [hc, TaskPc.running] at hr
  refine ⟨?_, ?_, ?_, ?_, ?_⟩
  · intro hp
    have hc := h.control
    have hcalls := h.calls
    cases hm : s.main <;> simp [hm, MainPc.pastWait] at hp hc <;>
      simp [hc, hcalls, TaskPc.called]
  · intro hr
    exact ⟨hdead (Or.inl hr), task1_enabled f s (hdead (Or.inl hr)) hr⟩
  · intro hr
    exact ⟨hdead (Or.inr hr), task2_enabled f s (hdead (Or.inr hr)) hr⟩
  · exact some_enabled f s h
  · obtain ⟨rest, s1, he, ht⟩ := completes f s.rank s (Nat.le_refl _) h
    have hinv := inv_exec f rest s s1 h he
    obtain ⟨h1, h2, h3, -⟩ := final_state f s1 hinv ht
    exact ⟨rest, s1, he, ht, h1, h2, h3⟩

/-- The entry state has rank twelve. -/
theorem rank_init (R : Type) : (FlowState.init R).rank = 12 := rfl

theorem trackEntry_firstOnly (t : TrackItem) :
    trackEntry { t with Artists := t.Artists.take 1 } = trackEntry t := by
  cases h : t.Artists <;> simp [trackEntry, h]

theorem firstOnly_entries (r : spotifyTrackResponse) :
    (firstArtistOnly r).Items.map trackEntry = r.Items.map trackEntry := by
  simp only [firstArtistOnly, List.map_map]
  apply List.map_congr_left
  intro t _
  exact trackEntry_firstOnly t

theorem firstOnly_nonempty (r : spotifyTrackResponse) :
    (∀ t ∈ (firstArtistOnly r).Items, t.Artists ≠ []) ↔ (∀ t ∈ r.Items, t.Artists ≠ []) := by
  simp only [firstArtistOnly, List.mem_map, forall_exists_index, and_imp,
    forall_apply_eq_imp_iff₂]
  constructor
  · intro h t ht
    have := h t ht
    cases hta : t.Artists <;> simp_all
  · intro h t ht
    have := h t ht
    cases hta : t.Artists <;> simp_all

/-! ## Bytes and characters -/

/-- The code points a character can have. -/
theorem char_range (c : Char) :
    c.toNat < 0xD800 ∨ (0xDFFF < c.toNat ∧ c.toNat < 0x110000) := by
  have h := c.valid
  simp only [UInt32.isValidChar, Nat.isValidChar] at h
  exact h

/-- Reading the bytes of a character gives back the character. -/
theorem decodeFrom_utf8Bytes (c : Char) (rest : List Nat) :
    decodeFrom 0 (utf8Bytes c ++ rest) = c :: decodeFrom 0 rest := by
  have hr := char_range c
  have hc : Char.ofNat c.toNat = c := Char.ofNat_toNat c
  simp only [utf8Bytes]
  split_ifs with h1 h2 h3
  · simp only [List.singleton_append]
    rw [decodeFrom]
    simp [DecodeRune, h1, hc]
  · have e1 : ¬ (0xC0 + c.toNat / 64 < 0x80) := by omega
    have e2 : 0xC2 ≤ 0xC0 + c.toNat / 64 ∧ 0xC0 + c.toNat / 64 ≤ 0xDF := by omega
    have e3 : isCont (0x80 + c.toNat % 64) = true := by
      simp only [isCont, Bool.and_eq_true, decide_eq_true_eq]; omega
    have e4 : (0xC0 + c.toNat / 64 - 0xC0) * 64 + (0x80 + c.toNat % 64 - 0x80) = c.toNat := by
      omega
    simp only [List.cons_append, List.nil_append]
    rw [decodeFrom]
    simp [DecodeRune, e1, e2, e3, e4, hc, decodeFrom]
    have e6 : c.toNat / 64 * 64 + c.toNat % 64 = c.toNat := by omega
    rw [e6]
    exact hc
  · have e1 : ¬ (0xE0 + c.toNat / 4096 < 0x80) := by omega
    have e2 : ¬ (0xC2 ≤ 0xE0 + c.toNat / 4096 ∧ 0xE0 + c.toNat / 4096 ≤ 0xDF) := by omega
    have e3 : 0xE0 ≤ 0xE0 + c.toNat / 4096 ∧ 0xE0 + c.toNat / 4096 ≤ 0xEF := by omega
    have e4 : acceptLo (0xE0 + c.toNat / 4096) ≤ 0x80 + (c.toNat / 64) % 64 ∧
        0x80 + (c.toNat / 64) % 64 ≤ acceptHi (0xE0 + c.toNat / 4096) ∧
        isCont (0x80 + c.toNat % 64) = true := by
      simp only [acceptLo, acceptHi, isCont, Bool.and_eq_true, decide_eq_true_eq]
      split_ifs <;> omega
    have e5 : ((0xE0 + c.toNat / 4096 - 0xE0) * 64 + (0x80 + (c.toNat / 64) % 64 - 0x80)) * 64 +
        (0x80 + c.toNat % 64 - 0x80) = c.toNat := by omega
    simp only [List.cons_append, List.nil_append]
    rw [decodeFrom]
    simp [DecodeRune, e1, e2, e3, e4, e5, hc, decodeFrom]
    have e6 : (c.toNat / 4096 * 64 + c.toNat / 64 % 64) * 64 + c.toNat % 64 = c.toNat := by
      omega
    rw [e6]
    exact hc
  · have e1 : ¬ (0xF0 + c.toNat / 262144 < 0x80) := by omega
    have e2 : ¬ (0xC2 ≤ 0xF0 + c.toNat / 262144 ∧ 0xF0 + c.toNat / 262144 ≤ 0xDF) := by omega
    have e3 : ¬ (0xE0 ≤ 0xF0 + c.toNat / 262144 ∧ 0xF0 + c.toNat / 262144 ≤ 0xEF) := by omega
    have e3b : 0xF0 ≤ 0xF0 + c.toNat / 262144 ∧ 0xF0 + c.toNat / 262144 ≤ 0xF4 := by omega
    have e4 : acceptLo (0xF0 + c.toNat / 262144) ≤ 0x80 + (c.toNat / 4096) % 64 ∧
        0x80 + (c.toNat / 4096) % 64 ≤ acceptHi (0xF0 + c.toNat / 262144) ∧
        isCont (0x80 + (c.toNat / 64) % 64) = true ∧
        isCont (0x80 + c.toNat % 64) = true := by
      simp only [acceptLo, acceptHi, isCont, Bool.and_eq_true, decide_eq_true_eq]
      split_ifs <;> omega
    have e5 : (((0xF0 + c.toNat / 262144 - 0xF0) * 64 + (0x80 + (c.toNat / 4096) % 64 - 0x80)) * 64 +
        (0x80 + (c.toNat / 64) % 64 - 0x80)) * 64 + (0x80 + c.toNat % 64 - 0x80) = c.toNat := by
      omega
    simp only [List.cons_append, List.nil_append]
    rw [decodeFrom]
    simp [DecodeRune, e1, e2, e3, e3b, e4, e5, hc, decodeFrom]
    have e6 : ((c.toNat / 262144 * 64 + c.toNat / 4096 % 64) * 64 + c.toNat / 64 % 64) * 64 +
        c.toNat % 64 = c.toNat := by
      omega
    rw [e6]
    exact hc

/-- Reading the bytes of a Go string gives back its characters. -/
theorem decodeUTF8_goBytes (s : String) : decodeUTF8 (goBytes s) = s.data := by
  simp only [decodeUTF8, goBytes]
  induction s.data with
  | nil => rfl
  | cons c cs ih =>
    simp only [List.flatMap_cons]
    rw [decodeFrom_utf8Bytes, ih]

/-- Bytes that are not well-formed UTF-8 are read as U+FFFD, one per byte:
    a truncated encoding before a quote, a stray byte `0xFF`, an encoded
    surrogate. -/
theorem decodeUTF8_malformed :
    decodeUTF8 [0x22, 0xE2, 0x82, 0x22, 0xC3, 0xA9, 0xFF, 0xED, 0xA0, 0x80] =
      [quote, replacementChar, replacementChar, quote, Char.ofNat 0xE9, replacementChar,
        replacementChar, replacementChar, replacementChar] := by
  decide

/-! ## Fuel of the JSON reader -/

theorem skipSpace_length (cs : List Char) : (skipSpace cs).length ≤ cs.length := by
  induction cs with
  | nil => simp [skipSpace]
  | cons c cs ih =>
    simp only [skipSpace]
    split
    · simp only [List.length_cons]; omega
    · simp

theorem spanDigits_length (cs : List Char) : (spanDigits cs).2.length ≤ cs.length := by
  induction cs with
  | nil => simp [spanDigits]
  | cons c cs ih =>
    simp only [spanDigits]
    split
    · simp only [List.length_cons]; omega
    · simp

/-- An escape takes at least one character of the input. -/
theorem unescape_length (cs : List Char) (ch : Char) (rest : List Char)
    (h : unescape cs = some (ch, rest)) : rest.length < cs.length := by
  cases cs with
  | nil => simp [unescape] at h
  | cons e r =>
    have d4 : (r.drop 4).length ≤ r.length := by simp
    have d6 : ((r.drop 4).drop 6).length ≤ r.length := by
      simp only [List.length_drop]; omega
    simp only [unescape] at h
    cases hs : simpleEscape e with
    | some x =>
      simp only [hs, Option.some.injEq, Prod.mk.injEq] at h
      simp [← h.2]
    | none =>
      simp only [hs] at h
      by_cases hu : e = 'u'
      · simp only [hu, if_true] at h
        cases hg : getu4 (backslash :: 'u' :: r) with
        | none => simp [hg] at h
        | some u =>
          simp only [hg] at h
          by_cases hsur : 0xD800 ≤ u ∧ u < 0xE000
          · simp only [hsur, and_self, if_true] at h
            cases hg2 : getu4 (r.drop 4) with
            | none =>
              simp only [hg2, Option.some.injEq, Prod.mk.injEq] at h
              simp only [← h.2, List.length_cons]; omega
            | some v =>
              simp only [hg2] at h
              by_cases hp : u < 0xDC00 ∧ 0xDC00 ≤ v ∧ v < 0xE000
              · simp only [hp, and_self, if_true, Option.some.injEq, Prod.mk.injEq] at h
                simp only [← h.2, List.length_cons]; omega
              · simp only [hp, if_false, Option.some.injEq, Prod.mk.injEq] at h
                simp only [← h.2, List.length_cons]; omega
          · simp only [hsur, if_false, Option.some.injEq, Prod.mk.injEq] at h
            simp only [← h.2, List.length_cons]; omega
      · simp [hu] at h

/-- More fuel than characters: the string reader does not depend on it. -/
theorem parseStringBody_fuel (k : Nat) :
    ∀ (n : Nat) (acc cs : List Char), cs.length < n →
      parseStringBody (n + k) acc cs = parseStringBody n acc cs := by
  intro n
  induction n with
  | zero => intro acc cs h; simp at h
  | succ n ih =>
    intro acc cs h
    have hn : n + 1 + k = (n + k) + 1 := by omega
    rw [hn]
    cases cs with
    | nil => simp [parseStringBody]
    | cons c cs =>
      simp only [List.length_cons] at h
      simp only [parseStringBody]
      rw [ih (c :: acc) cs (by omega)]
      cases hu : unescape cs with
      | none => rfl
      | some p =>
        obtain ⟨ch, rest⟩ := p
        have := unescape_length cs ch rest hu
        simp only
        rw [ih (ch :: acc) rest (by omega)]

/-- The string reader returns no more input than it was given. -/
theorem parseStringBody_length :
    ∀ (n : Nat) (acc cs : List Char) (s : String) (rest : List Char),
      parseStringBody n acc cs = some (s, rest) → rest.length ≤ cs.length := by
  intro n
  induction n with
  | zero => intro acc cs s rest h; simp [parseStringBody] at h
  | succ n ih =>
    intro acc cs s rest h
    cases cs with
    | nil => simp [parseStringBody] at h
    | cons c cs =>
      simp only [parseStringBody] at h
      by_cases h1 : c = quote
      · simp only [h1, if_true, Option.some.injEq, Prod.mk.injEq] at h
        simp [← h.2]
      · simp only [h1, if_false] at h
        by_cases h2 : c.toNat < 0x20
        · simp [h2] at h
        · simp only [h2, if_false] at h
          by_cases h3 : c = backslash
          · simp only [h3, if_true] at h
            cases hu : unescape cs with
            | none => simp [hu] at h
            | some p =>
              obtain ⟨ch, r⟩ := p
              simp only [hu] at h
              have h4 := unescape_length cs ch r hu
              have h5 := ih _ _ _ _ h
              simp only [List.length_cons]; omega
          · simp only [h3, if_false] at h
            have h5 := ih _ _ _ _ h
            simp only [List.length_cons]; omega

theorem readSign_length (cs : List Char) : (readSign cs).2.length ≤ cs.length := by
  unfold readSign
  split <;> simp

theorem readFraction_length (cs frac rest : List Char)
    (h : readFraction cs = some (frac, rest)) : rest.length ≤ cs.length := by
  unfold readFraction at h
  split at h
  · rename_i r
    split at h
    · simp at h
    · simp only [Option.some.injEq, Prod.mk.injEq] at h
      have := spanDigits_length r
      simp only [← h.2, List.length_cons]; omega
  · simp only [Option.some.injEq, Prod.mk.injEq] at h
    simp [← h.2]

theorem readExponent_length (cs ex rest : List Char)
    (h : readExponent cs = some (ex, rest)) : rest.length ≤ cs.length := by
  unfold readExponent at h
  split at h
  · simp only [Option.some.injEq, Prod.mk.injEq] at h
    simp [← h.2]
  · rename_i e r
    split at h
    · split at h
      · rename_i r2
        split at h
        · simp at h
        · simp only [Option.some.injEq, Prod.mk.injEq] at h
          have := spanDigits_length r2
          simp only [← h.2, List.length_cons]; omega
      · rename_i r2
        split at h
        · simp at h
        · simp only [Option.some.injEq, Prod.mk.injEq] at h
          have := spanDigits_length r2
          simp only [← h.2, List.length_cons]; omega
      · split at h
        · simp at h
        · simp only [Option.some.injEq, Prod.mk.injEq] at h
          have := spanDigits_length r
          simp only [← h.2, List.length_cons]; omega
    · simp only [Option.some.injEq, Prod.mk.injEq] at h
      simp [← h.2]

/-- The number reader returns no more input than it was given. -/
theorem parseNumber_length (cs : List Char) (lit : String) (rest : List Char)
    (h : parseNumber cs = some (lit, rest)) : rest.length ≤ cs.length := by
  unfold parseNumber at h
  simp only at h
  split at h
  · cases hf : readFraction (spanDigits (readSign cs).2).2 with
    | none => simp [hf] at h
    | some p =>
      obtain ⟨frac, cs1⟩ := p
      simp only [hf] at h
      cases he : readExponent cs1 with
      | none => simp [he] at h
      | some q =>
        obtain ⟨ex, cs2⟩ := q
        simp only [he, Option.some.injEq, Prod.mk.injEq] at h
        have h1 := readSign_length cs
        have h2 := spanDigits_length (readSign cs).2
        have h3 := readFraction_length _ _ _ hf
        have h4 := readExponent_length _ _ _ he
        rw [← h.2]; omega
  · simp at h

theorem readKeyword_length (cs : List Char) (v : JSON) (rest : List Char)
    (h : readKeyword cs = some (v, rest)) : rest.length ≤ cs.length := by
  unfold readKeyword at h
  split at h <;>
    first
      | (simp only [Option.some.injEq, Prod.mk.injEq] at h
         simp only [← h.2, List.length_cons]; omega)
      | (simp at h)

/-- The readers return no more input than they were given. -/
theorem parse_length (n : Nat) :
    (∀ d cs v rest, parseValue n d cs = some (v, rest) → rest.length ≤ cs.length) ∧
    (∀ d cs vs rest, parseElements n d cs = some (vs, rest) → rest.length ≤ cs.length) ∧
    (∀ d cs kvs rest, parseMembers n d cs = some (kvs, rest) → rest.length ≤ cs.length) := by
  induction n with
  | zero => simp [parseValue, parseElements, parseMembers]
  | succ n ih =>
    obtain ⟨ihV, ihE, ihM⟩ := ih
    refine ⟨?_, ?_, ?_⟩
    · intro d cs v rest h
      simp only [parseValue] at h
      have hsk := skipSpace_length cs
      cases h0 : skipSpace cs with
      | nil => simp [h0] at h
      | cons c r =>
        rw [h0] at hsk
        simp only [h0, List.length_cons] at h hsk
        split at h
        · -- an object
          split at h
          · simp at h
          · have hsk2 := skipSpace_length r
            cases h1 : skipSpace r with
            | nil => simp [h1] at h
            | cons d2 r2 =>
              rw [h1] at hsk2
              simp only [h1, List.length_cons] at h hsk2
              split at h
              · simp only [Option.some.injEq, Prod.mk.injEq] at h
                rw [← h.2]; omega
              · cases h2 : parseMembers n (d + 1) (d2 :: r2) with
                | none => simp [h2] at h
                | some p =>
                  obtain ⟨kvs, r3⟩ := p
                  simp only [h2, Option.some.injEq, Prod.mk.injEq] at h
                  have := ihM _ _ _ _ h2
                  simp only [List.length_cons] at this
                  rw [← h.2]; omega
        · split at h
          · -- an array
            split at h
            · simp at h
            · have hsk2 := skipSpace_length r
              cases h1 : skipSpace r with
              | nil => simp [h1] at h
              | cons d2 r2 =>
                rw [h1] at hsk2
                simp only [h1, List.length_cons] at h hsk2
                split at h
                · simp only [Option.some.injEq, Prod.mk.injEq] at h
                  rw [← h.2]; omega
                · cases h2 : parseElements n (d + 1) (d2 :: r2) with
                  | none => simp [h2] at h
                  | some p =>
                    obtain ⟨xs, r3⟩ := p
                    simp only [h2, Option.some.injEq, Prod.mk.injEq] at h
                    have := ihE _ _ _ _ h2
                    simp only [List.length_cons] at this
                    rw [← h.2]; omega
          · split at h
            · -- a string
              cases h2 : parseStringBody (r.length + 1) [] r with
              | none => simp [h2] at h
              | some p =>
                obtain ⟨s, r3⟩ := p
                simp only [h2, Option.some.injEq, Prod.mk.injEq] at h
                have := parseStringBody_length _ _ _ _ _ h2
                rw [← h.2]; omega
            · split at h
              · -- a number
                cases h2 : parseNumber (c :: r) with
                | none => simp [h2] at h
                | some p =>
                  obtain ⟨lit, r3⟩ := p
                  simp only [h2, Option.some.injEq, Prod.mk.injEq] at h
                  have := parseNumber_length _ _ _ h2
                  simp only [List.length_cons] at this
                  rw [← h.2]; omega
              · have := readKeyword_length _ _ _ h
                simp only [List.length_cons] at this
                omega
    · intro d cs vs rest h
      simp only [parseElements] at h
      cases h0 : parseValue n d cs with
      | none => simp [h0] at h
      | some p =>
        obtain ⟨v, r⟩ := p
        have hv := ihV _ _ _ _ h0
        have hsk := skipSpace_length r
        simp only [h0] at h
        cases h1 : skipSpace r with
        | nil => simp [h1] at h
        | cons d2 r2 =>
          rw [h1] at hsk
          simp only [h1, List.length_cons] at h hsk
          split at h
          · cases h2 : parseElements n d r2 with
            | none => simp [h2] at h
            | some q =>
              obtain ⟨xs, r3⟩ := q
              simp only [h2, Option.some.injEq, Prod.mk.injEq] at h
              have := ihE _ _ _ _ h2
              rw [← h.2]; omega
          · split at h
            · simp only [Option.some.injEq, Prod.mk.injEq] at h
              rw [← h.2]; omega
            · simp at h
    · intro d cs kvs rest h
      simp only [parseMembers] at h
      have hsk := skipSpace_length cs
      cases h0 : skipSpace cs with
      | nil => simp [h0] at h
      | cons q r =>
        rw [h0] at hsk
        simp only [h0, List.length_cons] at h hsk
        split at h
        · simp at h
        · cases h1 : parseStringBody (r.length + 1) [] r with
          | none => simp [h1] at h
          | some p =>
            obtain ⟨key, r1⟩ := p
            have hs := parseStringBody_length _ _ _ _ _ h1
            have hsk1 := skipSpace_length r1
            simp only [h1] at h
            cases h2 : skipSpace r1 with
            | nil => simp [h2] at h
            | cons colon r2 =>
              rw [h2] at hsk1
              simp only [h2, List.length_cons] at h hsk1
              split at h
              · simp at h
              · cases h3 : parseValue n d r2 with
                | none => simp [h3] at h
                | some p2 =>
                  obtain ⟨v, r3⟩ := p2
                  have hv := ihV _ _ _ _ h3
                  have hsk3 := skipSpace_length r3
                  simp only [h3] at h
                  cases h4 : skipSpace r3 with
                  | nil => simp [h4] at h
                  | cons d4 r4 =>
                    rw [h4] at hsk3
                    simp only [h4, List.length_cons] at h hsk3
                    split at h
                    · cases h5 : parseMembers n d r4 with
                      | none => simp [h5] at h
                      | some q5 =>
                        obtain ⟨kvs5, r5⟩ := q5
                        simp only [h5, Option.some.injEq, Prod.mk.injEq] at h
                        have := ihM _ _ _ _ h5
                        rw [← h.2]; omega
                    · split at h
                      · simp only [Option.some.injEq, Prod.mk.injEq] at h
                        rw [← h.2]; omega
                      · simp at h

/-- With fuel beyond twice the length of the input, the readers do not depend
    on the fuel: they never stop for lack of it. -/
theorem parse_fuel (k : Nat) (n : Nat) :
    (∀ d cs, 2 * cs.length + 1 ≤ n → parseValue (n + k) d cs = parseValue n d cs) ∧
    (∀ d cs, 2 * cs.length + 2 ≤ n → parseElements (n + k) d cs = parseElements n d cs) ∧
    (∀ d cs, 2 * cs.length + 2 ≤ n → parseMembers (n + k) d cs = parseMembers n d cs) := by
  induction n with
  | zero =>
    refine ⟨?_, ?_, ?_⟩ <;> intro d cs h <;> omega
  | succ n ih =>
    obtain ⟨ihV, ihE, ihM⟩ := ih
    have hn : n + 1 + k = (n + k) + 1 := by omega
    rw [hn]
    refine ⟨?_, ?_, ?_⟩
    · intro d cs hb
      have hsk := skipSpace_length cs
      cases h0 : skipSpace cs with
      | nil => simp only [parseValue, h0]
      | cons c r =>
        rw [h0] at hsk
        simp only [List.length_cons] at hsk
        have hsk2 := skipSpace_length r
        cases h1 : skipSpace r with
        | nil => simp only [parseValue, h0, h1]
        | cons d2 r2 =>
          rw [h1] at hsk2
          simp only [List.length_cons] at hsk2
          have eM := ihM (d + 1) (d2 :: r2) (by simp only [List.length_cons]; omega)
          have eE := ihE (d + 1) (d2 :: r2) (by simp only [List.length_cons]; omega)
          simp only [parseValue, h0, h1, eM, eE]
    · intro d cs hb
      have eV := ihV d cs (by omega)
      simp only [parseElements, eV]
      cases h0 : parseValue n d cs with
      | none => rfl
      | some p =>
        obtain ⟨v, r⟩ := p
        have hv := (parse_length n).1 _ _ _ _ h0
        have hsk := skipSpace_length r
        cases h1 : skipSpace r with
        | nil => simp only [h1]
        | cons d2 r2 =>
          rw [h1] at hsk
          simp only [List.length_cons] at hsk
          have eE := ihE d r2 (by omega)
          simp only [h1, eE]
    · intro d cs hb
      have hsk := skipSpace_length cs
      cases h0 : skipSpace cs with
      | nil => simp only [parseMembers, h0]
      | cons q r =>
        rw [h0] at hsk
        simp only [List.length_cons] at hsk
        cases h1 : parseStringBody (r.length + 1) [] r with
        | none => simp only [parseMembers, h0, h1]
        | some p =>
          obtain ⟨key, r1⟩ := p
          have hs := parseStringBody_length _ _ _ _ _ h1
          have hsk1 := skipSpace_length r1
          cases h2 : skipSpace r1 with
          | nil => simp only [parseMembers, h0, h1, h2]
          | cons colon r2 =>
            rw [h2] at hsk1
            simp only [List.length_cons] at hsk1
            have eV := ihV d r2 (by omega)
            cases h3 : parseValue n d r2 with
            | none => simp only [parseMembers, h0, h1, h2, eV, h3]
            | some p2 =>
              obtain ⟨v, r3⟩ := p2
              have hv := (parse_length n).1 _ _ _ _ h3
              have hsk3 := skipSpace_length r3
              cases h4 : skipSpace r3 with
              | nil => simp only [parseMembers, h0, h1, h2, eV, h3, h4]
              | cons d4 r4 =>
                rw [h4] at hsk3
                simp only [List.length_cons] at hsk3
                have eM := ihM d r4 (by omega)
                simp only [parseMembers, h0, h1, h2, eV, h3, h4, eM]

/-- The fuel `parseJSON` gives is enough: any larger amount reads the same. -/
theorem parseJSON_fuel (data : List Nat) (k : Nat) :
    parseValue (2 * (decodeUTF8 data).length + 2 + k) 0 (decodeUTF8 data) =
      parseValue (2 * (decodeUTF8 data).length + 2) 0 (decodeUTF8 data) :=
  (parse_fuel k (2 * (decodeUTF8 data).length + 2)).1 0 (decodeUTF8 data) (by omega)

/-! ## Decoding -/

theorem saveError_isSome (saved : Option GoError) (e : GoError) :
    (saveError saved e).isSome = true := by
  cases saved <;> simp [saveError]

theorem saveError_typeErrorOnly (saved : Option GoError) (v : String)
    (h : typeErrorOnly saved) : typeErrorOnly (saveError saved (.jsonUnmarshalType v)) := by
  cases saved with
  | none =>
    intro e he
    simp [saveError] at he
    exact ⟨v, he.symm⟩
  | some e0 => exact h

mutual
theorem ifaceErrors_keep (j : JSON) (saved : Option GoError) :
    (saved.isSome = true → ifaceErrors j saved = saved) ∧
    (typeErrorOnly saved → typeErrorOnly (ifaceErrors j saved)) := by
  cases j with
  | null => simp [ifaceErrors]
  | bool b => simp [ifaceErrors]
  | str s => simp [ifaceErrors]
  | num lit =>
    simp only [ifaceErrors]
    split
    · simp
    · refine ⟨?_, saveError_typeErrorOnly saved _⟩
      intro h
      cases saved <;> simp_all [saveError]
  | arr xs => simp only [ifaceErrors]; exact ifaceErrorsList_keep xs saved
  | obj kvs => simp only [ifaceErrors]; exact ifaceErrorsMembers_keep kvs saved
theorem ifaceErrorsList_keep (xs : List JSON) (saved : Option GoError) :
    (saved.isSome = true → ifaceErrorsList xs saved = saved) ∧
    (typeErrorOnly saved → typeErrorOnly (ifaceErrorsList xs saved)) := by
  cases xs with
  | nil => simp [ifaceErrorsList]
  | cons x xs =>
    simp only [ifaceErrorsList]
    have h1 := ifaceErrors_keep x saved
    have h2 := ifaceErrorsList_keep xs (ifaceErrors x saved)
    refine ⟨?_, fun h => h2.2 (h1.2 h)⟩
    intro h
    have := h1.1 h
    rw [this] at h2
    rw [this]
    exact h2.1 h
theorem ifaceErrorsMembers_keep (kvs : List (String × JSON)) (saved : Option GoError) :
    (saved.isSome = true → ifaceErrorsMembers kvs saved = saved) ∧
    (typeErrorOnly saved → typeErrorOnly (ifaceErrorsMembers kvs saved)) := by
  cases kvs with
  | nil => simp [ifaceErrorsMembers]
  | cons kv kvs =>
    obtain ⟨k, x⟩ := kv
    simp only [ifaceErrorsMembers]
    have h1 := ifaceErrors_keep x saved
    have h2 := ifaceErrorsMembers_keep kvs (ifaceErrors x saved)
    refine ⟨?_, fun h => h2.2 (h1.2 h)⟩
    intro h
    have := h1.1 h
    rw [this] at h2
    rw [this]
    exact h2.1 h
end

theorem keep_id (saved : Option GoError) :
    (saved.isSome = true → saved = saved) ∧ (typeErrorOnly saved → typeErrorOnly saved) :=
  ⟨fun _ => rfl, fun h => h⟩

theorem keep_save (saved : Option GoError) (v : String) :
    (saved.isSome = true → saveError saved (.jsonUnmarshalType v) = saved) ∧
    (typeErrorOnly saved → typeErrorOnly (saveError saved (.jsonUnmarshalType v))) :=
  ⟨fun h => by cases saved <;> simp_all [saveError], saveError_typeErrorOnly saved v⟩

mutual
theorem decodeValue_keep (t : GoType) (j : JSON) (cur : GoValue) (saved : Option GoError) :
    (saved.isSome = true → (decodeValue t j cur saved).2 = saved) ∧
    (typeErrorOnly saved → typeErrorOnly (decodeValue t j cur saved).2) := by
  cases j with
  | null => cases t <;> simp [decodeValue]
  | bool b =>
    cases t <;> simp only [decodeValue] <;>
      first
        | exact keep_id saved
        | exact ⟨fun _ => trivial, fun h => h⟩
        | exact keep_save saved _
  | str s =>
    cases t <;> simp only [decodeValue] <;>
      first
        | exact keep_id saved
        | exact ⟨fun _ => trivial, fun h => h⟩
        | exact keep_save saved _
  | num lit =>
    cases t <;> simp only [decodeValue] <;>
      first
        | exact keep_save saved _
        | (split <;>
            first
              | exact keep_id saved
              | exact ⟨fun _ => trivial, fun h => h⟩
              | exact keep_save saved _)
  | arr xs =>
    cases t with
    | iface => simp only [decodeValue]; exact ifaceErrorsList_keep xs saved
    | slice elem =>
      simp only [decodeValue]
      exact decodeElements_keep elem xs _ saved
    | string => simp only [decodeValue]; exact keep_save saved _
    | int => simp only [decodeValue]; exact keep_save saved _
    | bool => simp only [decodeValue]; exact keep_save saved _
    | struct fields => simp only [decodeValue]; exact keep_save saved _
  | obj kvs =>
    cases t with
    | iface => simp only [decodeValue]; exact ifaceErrorsMembers_keep kvs saved
    | struct fields =>
      simp only [decodeValue]
      exact decodeMembers_keep fields kvs _ saved
    | string => simp only [decodeValue]; exact keep_save saved _
    | int => simp only [decodeValue]; exact keep_save saved _
    | bool => simp only [decodeValue]; exact keep_save saved _
    | slice elem => simp only [decodeValue]; exact keep_save saved _
theorem decodeElements_keep (t : GoType) (xs : List JSON) (old : List GoValue)
    (saved : Option GoError) :
    (saved.isSome = true → (decodeElements t xs old saved).2 = saved) ∧
    (typeErrorOnly saved → typeErrorOnly (decodeElements t xs old saved).2) := by
  cases xs with
  | nil => simp [decodeElements]
  | cons x xs =>
    simp only [decodeElements]
    have h1 := decodeValue_keep t x (old.headD t.zero) saved
    have h2 := decodeElements_keep t xs old.tail (decodeValue t x (old.headD t.zero) saved).2
    refine ⟨?_, fun h => h2.2 (h1.2 h)⟩
    intro h
    rw [h2.1 (by rw [h1.1 h]; exact h), h1.1 h]
theorem decodeMembers_keep (fields : List (String × String × GoType))
    (kvs : List (String × JSON)) (cur : List GoValue) (saved : Option GoError) :
    (saved.isSome = true → (decodeMembers fields kvs cur saved).2 = saved) ∧
    (typeErrorOnly saved → typeErrorOnly (decodeMembers fields kvs cur saved).2) := by
  cases kvs with
  | nil => simp [decodeMembers]
  | cons kv kvs =>
    obtain ⟨key, x⟩ := kv
    cases hfi : fieldIndex fields key with
    | none =>
      simp only [decodeMembers, hfi]
      exact decodeMembers_keep fields kvs cur saved
    | some i =>
      cases hget : fields.get? i with
      | none =>
        simp only [decodeMembers, hfi, hget]
        exact decodeMembers_keep fields kvs cur saved
      | some f =>
        obtain ⟨g, n, t⟩ := f
        simp only [decodeMembers, hfi, hget]
        have h1 := decodeValue_keep t x (cur.getD i t.zero) saved
        have h2 := decodeMembers_keep fields kvs
          (cur.set i (decodeValue t x (cur.getD i t.zero) saved).1)
          (decodeValue t x (cur.getD i t.zero) saved).2
        refine ⟨?_, fun h => h2.2 (h1.2 h)⟩
        intro h
        rw [h2.1 (by rw [h1.1 h]; exact h), h1.1 h]
end

/-- A value that is neither `null` nor a sequence, decoded into a slice,
    records an error. -/
theorem decodeValue_slice_mismatch (elem : GoType) (v : JSON) (cur : GoValue)
    (saved : Option GoError) (hn : v.isNull = false) (ha : v.isArr = false) :
    (decodeValue (.slice elem) v cur saved).2.isSome = true := by
  cases v <;> simp [JSON.isNull, JSON.isArr] at hn ha <;>
    simp [decodeValue, saveError_isSome]

/-- A value that is neither `null` nor an object, decoded into a struct,
    records an error. -/
theorem decodeValue_struct_mismatch (fields : List (String × String × GoType)) (j : JSON)
    (cur : GoValue) (saved : Option GoError) (hn : j.isNull = false) (ho : j.isObj = false) :
    (decodeValue (.struct fields) j cur saved).2.isSome = true := by
  cases j <;> simp [JSON.isNull, JSON.isObj] at hn ho <;>
    simp [decodeValue, saveError_isSome]

/-! ### Decoding and the shape of the declared type -/

mutual
theorem ifaceErrors_range (j : JSON) (saved : Option GoError) :
    (JSON.inFloatRange j = true → ifaceErrors j saved = saved) ∧
    (JSON.inFloatRange j = false → (ifaceErrors j saved).isSome = true) := by
  cases j with
  | null => simp [ifaceErrors, JSON.inFloatRange]
  | bool b => simp [ifaceErrors, JSON.inFloatRange]
  | str s => simp [ifaceErrors, JSON.inFloatRange]
  | num lit =>
    simp only [ifaceErrors, JSON.inFloatRange]
    by_cases h : float64InRange lit = true
    · simp [h]
    · simp [h, saveError_isSome]
  | arr xs =>
    simp only [ifaceErrors, JSON.inFloatRange]
    exact ifaceErrorsList_range xs saved
  | obj kvs =>
    simp only [ifaceErrors, JSON.inFloatRange]
    exact ifaceErrorsMembers_range kvs saved
theorem ifaceErrorsList_range (xs : List JSON) (saved : Option GoError) :
    (JSON.inFloatRangeList xs = true → ifaceErrorsList xs saved = saved) ∧
    (JSON.inFloatRangeList xs = false → (ifaceErrorsList xs saved).isSome = true) := by
  cases xs with
  | nil => simp [ifaceErrorsList, JSON.inFloatRangeList]
  | cons x xs =>
    simp only [ifaceErrorsList, JSON.inFloatRangeList]
    have h1 := ifaceErrors_range x saved
    have h2 := ifaceErrorsList_range xs (ifaceErrors x saved)
    cases hx : JSON.inFloatRange x with
    | true =>
      rw [h1.1 hx] at h2
      rw [h1.1 hx]
      simpa using h2
    | false =>
      have h3 := h1.2 hx
      rw [(ifaceErrorsList_keep xs _).1 h3]
      simp [h3]
theorem ifaceErrorsMembers_range (kvs : List (String × JSON)) (saved : Option GoError) :
    (JSON.inFloatRangeMembers kvs = true → ifaceErrorsMembers kvs saved = saved) ∧
    (JSON.inFloatRangeMembers kvs = false → (ifaceErrorsMembers kvs saved).isSome = true) := by
  cases kvs with
  | nil => simp [ifaceErrorsMembers, JSON.inFloatRangeMembers]
  | cons kv kvs =>
    obtain ⟨k, x⟩ := kv
    simp only [ifaceErrorsMembers, JSON.inFloatRangeMembers]
    have h1 := ifaceErrors_range x saved
    have h2 := ifaceErrorsMembers_range kvs (ifaceErrors x saved)
    cases hx : JSON.inFloatRange x with
    | true =>
      rw [h1.1 hx] at h2
      rw [h1.1 hx]
      simpa using h2
    | false =>
      have h3 := h1.2 hx
      rw [(ifaceErrorsMembers_keep kvs _).1 h3]
      simp [h3]
end

/-- The index `findField` gives is the position of the field `List.find?`
    gives. -/
theorem findField_find (p : String → Bool) (fields : List (String × String × GoType)) :
    (findField p fields = none → fields.find? (fun f => p f.2.1) = none) ∧
    (∀ i, findField p fields = some i →
      ∃ f, fields.get? i = some f ∧ fields.find? (fun f => p f.2.1) = some f) := by
  induction fields with
  | nil => simp [findField]
  | cons f rest ih =>
    obtain ⟨g, n, t⟩ := f
    simp only [findField, List.find?_cons]
    by_cases hp : p n = true
    · simp [hp]
    · simp only [hp, Bool.false_eq_true, if_false]
      refine ⟨?_, ?_⟩
      · intro h
        apply ih.1
        cases hf : findField p rest with
        | none => rfl
        | some i => simp [hf] at h
      · intro i h
        cases hf : findField p rest with
        | none => simp [hf] at h
        | some k =>
          simp [hf] at h
          subst h
          obtain ⟨f, h1, h2⟩ := ih.2 k hf
          exact ⟨f, by simpa using h1, h2⟩

/-- The field a key names, by its index. -/
theorem fieldFor_index (fields : List (String × String × GoType)) (key : String) :
    (fieldIndex fields key = none → fieldFor fields key = none) ∧
    (∀ i, fieldIndex fields key = some i →
      ∃ f, fields.get? i = some f ∧ fieldFor fields key = some f.2.2) := by
  have h1 := findField_find (fun name => decide (name = key)) fields
  have h2 := findField_find (fun name => equalFold name key) fields
  simp only [fieldIndex, fieldFor]
  cases hf : findField (fun name => decide (name = key)) fields with
  | some i =>
    obtain ⟨f, h3, h4⟩ := h1.2 i hf
    refine ⟨by simp, ?_⟩
    intro k hk
    simp at hk
    subst hk
    exact ⟨f, h3, by simp [h4]⟩
  | none =>
    have h5 := h1.1 hf
    simp only [h5]
    refine ⟨?_, ?_⟩
    · intro h
      simp [h2.1 h]
    · intro i hi
      obtain ⟨f, h3, h4⟩ := h2.2 i hi
      exact ⟨f, h3, by simp [h4]⟩

mutual
/-- Decoding records an error exactly when the value does not match the shape
    of the type, whatever the value decoded into and whatever was recorded
    before. -/
theorem decodeValue_shape (t : GoType) (j : JSON) (cur : GoValue) (saved : Option GoError) :
    (matchesShape t j = true → (decodeValue t j cur saved).2 = saved) ∧
    (matchesShape t j = false → (decodeValue t j cur saved).2.isSome = true) := by
  cases j with
  | null => cases t <;> simp [decodeValue, matchesShape]
  | bool b => cases t <;> simp [decodeValue, matchesShape, saveError_isSome]
  | str s => cases t <;> simp [decodeValue, matchesShape, saveError_isSome]
  | num lit =>
    cases t with
    | int =>
      simp only [decodeValue, matchesShape]
      cases parseInt64 lit <;> simp [saveError_isSome]
    | iface =>
      simp only [decodeValue, matchesShape]
      by_cases h : float64InRange lit = true
      · simp [h]
      · simp [h, saveError_isSome]
    | string => simp [decodeValue, matchesShape, saveError_isSome]
    | bool => simp [decodeValue, matchesShape, saveError_isSome]
    | slice elem => simp [decodeValue, matchesShape, saveError_isSome]
    | struct fields => simp [decodeValue, matchesShape, saveError_isSome]
  | arr xs =>
    cases t with
    | iface => simp only [decodeValue, matchesShape]; exact ifaceErrorsList_range xs saved
    | slice elem =>
      simp only [decodeValue, matchesShape]
      exact decodeElements_shape elem xs _ saved
    | string => simp [decodeValue, matchesShape, saveError_isSome]
    | int => simp [decodeValue, matchesShape, saveError_isSome]
    | bool => simp [decodeValue, matchesShape, saveError_isSome]
    | struct fields => simp [decodeValue, matchesShape, saveError_isSome]
  | obj kvs =>
    cases t with
    | iface => simp only [decodeValue, matchesShape]; exact ifaceErrorsMembers_range kvs saved
    | struct fields =>
      simp only [decodeValue, matchesShape]
      exact decodeMembers_shape fields kvs _ saved
    | string => simp [decodeValue, matchesShape, saveError_isSome]
    | int => simp [decodeValue, matchesShape, saveError_isSome]
    | bool => simp [decodeValue, matchesShape, saveError_isSome]
    | slice elem => simp [decodeValue, matchesShape, saveError_isSome]
theorem decodeElements_shape (t : GoType) (xs : List JSON) (backing : List GoValue)
    (saved : Option GoError) :
    (matchesShapeAll t xs = true → (decodeElements t xs backing saved).2 = saved) ∧
    (matchesShapeAll t xs = false → (decodeElements t xs backing saved).2.isSome = true) := by
  cases xs with
  | nil => simp [decodeElements, matchesShapeAll]
  | cons x xs =>
    simp only [decodeElements, matchesShapeAll]
    have h1 := decodeValue_shape t x (backing.headD t.zero) saved
    have h2 := decodeElements_shape t xs backing.tail
      (decodeValue t x (backing.headD t.zero) saved).2
    cases hx : matchesShape t x with
    | true =>
      rw [h1.1 hx] at h2
      rw [h1.1 hx]
      simpa using h2
    | false =>
      have h3 := h1.2 hx
      rw [(decodeElements_keep t xs _ _).1 h3]
      exact ⟨fun h => by simp at h, fun _ => h3⟩
theorem decodeMembers_shape (fields : List (String × String × GoType))
    (kvs : List (String × JSON)) (cur : List GoValue) (saved : Option GoError) :
    (matchesShapeMembers fields kvs = true → (decodeMembers fields kvs cur saved).2 = saved) ∧
    (matchesShapeMembers fields kvs = false →
      (decodeMembers fields kvs cur saved).2.isSome = true) := by
  cases kvs with
  | nil => simp [decodeMembers, matchesShapeMembers]
  | cons kv kvs =>
    obtain ⟨key, x⟩ := kv
    have hff := fieldFor_index fields key
    cases hfi : fieldIndex fields key with
    | none =>
      simp only [decodeMembers, matchesShapeMembers, hfi, hff.1 hfi, Bool.true_and]
      exact decodeMembers_shape fields kvs cur saved
    | some i =>
      obtain ⟨f, hget, hfor⟩ := hff.2 i hfi
      obtain ⟨g, n, t⟩ := f
      simp only [decodeMembers, matchesShapeMembers, hfi, hget, hfor]
      have h1 := decodeValue_shape t x (cur.getD i t.zero) saved
      have h2 := decodeMembers_shape fields kvs
        (cur.set i (decodeValue t x (cur.getD i t.zero) saved).1)
        (decodeValue t x (cur.getD i t.zero) saved).2
      cases hx : matchesShape t x with
      | true =>
        rw [h1.1 hx] at h2
        rw [h1.1 hx]
        simpa using h2
      | false =>
        have h3 := h1.2 hx
        rw [(decodeMembers_keep fields kvs _ _).1 h3]
        exact ⟨fun h => by simp at h, fun _ => h3⟩
end

/-- What `json.Unmarshal` returns, by the syntax of the bytes and the shape of
    the value. -/
theorem unmarshal_shape (t : GoType) (bytes : List Nat) :
    (parseJSON bytes = none → Unmarshal t bytes = .error .jsonSyntax) ∧
    (∀ j, parseJSON bytes = some j → matchesShape t j = false →
      ∃ val, Unmarshal t bytes = .error (.jsonUnmarshalType val)) ∧
    (∀ j, parseJSON bytes = some j → matchesShape t j = true →
      Unmarshal t bytes = .ok (decodeValue t j t.zero none).1) := by
  refine ⟨?_, ?_, ?_⟩
  · intro h
    simp [Unmarshal, h]
  · intro j hj hm
    have hsome := (decodeValue_shape t j t.zero none).2 hm
    have hty := (decodeValue_keep t j t.zero none).2 (by intro e he; simp at he)
    cases hd : decodeValue t j t.zero none with
    | mk val saved =>
      rw [hd] at hsome hty
      cases saved with
      | none => simp at hsome
      | some e =>
        obtain ⟨w, hw⟩ := hty e rfl
        exact ⟨w, by simp [Unmarshal, hj, hd, hw]⟩
  · intro j hj hm
    have hnone := (decodeValue_shape t j t.zero none).1 hm
    cases hd : decodeValue t j t.zero none with
    | mk val saved =>
      rw [hd] at hnone
      simp only at hnone
      subst hnone
      simp [Unmarshal, hj, hd]

/-- A value that is neither `null` nor an object does not match a struct. -/
theorem matchesShape_struct_kind (fields : List (String × String × GoType)) (j : JSON)
    (hn : j.isNull = false) (ho : j.isObj = false) :
    matchesShape (.struct fields) j = false := by
  cases j <;> simp [JSON.isNull, JSON.isObj] at hn ho <;> simp [matchesShape]

/-- A value that is neither `null` nor a sequence does not match a slice. -/
theorem matchesShape_slice_kind (elem : GoType) (v : JSON)
    (hn : v.isNull = false) (ha : v.isArr = false) :
    matchesShape (.slice elem) v = false := by
  cases v <;> simp [JSON.isNull, JSON.isArr] at hn ha <;> simp [matchesShape]

theorem equalFold_self (key : String) : equalFold key key = true := by
  simp [equalFold]

/-- A key that is `items` up to letter case names the field `Items`, when no
    other field is tagged `items` up to letter case. -/
theorem fieldFor_items (elem : GoType) (rest : List (String × String × GoType))
    (hrest : ∀ f ∈ rest, equalFold "items" f.2.1 = false) (key : String)
    (hk : equalFold "items" key = true) :
    fieldFor (("Items", "items", .slice elem) :: rest) key = some (.slice elem) := by
  simp only [fieldFor, List.find?_cons]
  by_cases h1 : "items" = key
  · simp [h1]
  · simp only [h1, decide_False]
    cases hf : rest.find? (fun f => decide (f.2.1 = key)) with
    | some f =>
      have h2 := List.find?_some hf
      have h3 := List.mem_of_find?_eq_some hf
      simp only [decide_eq_true_eq] at h2
      have h4 := hrest f h3
      rw [h2, hk] at h4
      exact absurd h4 (by simp)
    | none => simp [hk]

/-- An object with a member that does not match the field it names does not
    match the struct. -/
theorem matchesShapeMembers_false (fields : List (String × String × GoType))
    (key : String) (v : JSON) (t : GoType) (hfor : fieldFor fields key = some t)
    (hv : matchesShape t v = false) (kvs : List (String × JSON)) (hmem : (key, v) ∈ kvs) :
    matchesShapeMembers fields kvs = false := by
  induction kvs with
  | nil => simp at hmem
  | cons kv kvs ih =>
    obtain ⟨k, x⟩ := kv
    simp only [List.mem_cons, Prod.mk.injEq] at hmem
    simp only [matchesShapeMembers]
    rcases hmem with ⟨hk, hx⟩ | h
    · subst hk hx
      simp [hfor, hv]
    · simp [ih h]

/-- Only a key that is `items` up to letter case names the first field, tagged
    `items`. -/
theorem fieldIndex_items_fold (elem : GoType) (rest : List (String × String × GoType))
    (key : String)
    (h : fieldIndex (("Items", "items", .slice elem) :: rest) key = some 0) :
    equalFold "items" key = true := by
  by_cases h1 : "items" = key
  · rw [← h1]; exact equalFold_self _
  · by_contra h2
    simp only [fieldIndex, findField, h1, decide_False, Bool.false_eq_true, if_false, h2] at h
    cases hf : findField (fun name => decide (name = key)) rest with
    | some i => simp [hf] at h
    | none =>
      simp only [hf, Option.map_none'] at h
      cases hg : findField (fun name => equalFold name key) rest with
      | some i => simp [hg] at h
      | none => simp [hg] at h

/-- When `items` is missing or `null`, the field `Items` stays the empty
    slice, whatever the other members are. -/
theorem decodeMembers_items_missing (elem : GoType) (rest : List (String × String × GoType))
    (kvs : List (String × JSON)) :
    ∀ (cur : List GoValue) (saved : Option GoError), cur.head? = some (.slice [] []) →
      (kvs.all fun kv => !equalFold "items" kv.1 || kv.2.isNull) = true →
      (decodeMembers (("Items", "items", .slice elem) :: rest) kvs cur saved).1.head?
        = some (.slice [] []) := by
  induction kvs with
  | nil => intro cur saved hc _; simpa [decodeMembers] using hc
  | cons kv kvs ih =>
    intro cur saved hc hall
    obtain ⟨key, x⟩ := kv
    simp only [List.all_cons, Bool.and_eq_true] at hall
    obtain ⟨hkv, hrestAll⟩ := hall
    cases hfi : fieldIndex (("Items", "items", GoType.slice elem) :: rest) key with
    | none =>
      simp only [decodeMembers, hfi]
      exact ih cur saved hc hrestAll
    | some i =>
      cases hget : (("Items", "items", GoType.slice elem) :: rest).get? i with
      | none =>
        simp only [decodeMembers, hfi, hget]
        exact ih cur saved hc hrestAll
      | some f =>
        obtain ⟨g, n, t⟩ := f
        simp only [decodeMembers, hfi, hget]
        apply ih _ _ _ hrestAll
        cases i with
        | zero =>
          have hfold := fieldIndex_items_fold elem rest key hfi
          simp only [hfold, Bool.not_true, Bool.false_or] at hkv
          have hx : x = .null := by
            cases x <;> simp [JSON.isNull] at hkv
            rfl
          subst hx
          simp only [List.get?_cons_zero, Option.some.injEq, Prod.mk.injEq] at hget
          obtain ⟨-, -, ht⟩ := hget
          subst ht
          cases cur with
          | nil => simp at hc
          | cons c cs => simp [decodeValue]
        | succ k =>
          cases cur with
          | nil => simp at hc
          | cons c cs => simpa using hc

/-- The decoding contract, for a struct whose first field is `Items []T` with
    tag `items` and a projection `toR` of the decoded value. -/
theorem decodeContract_of_unmarshal {R : Type} (elem : GoType)
    (rest : List (String × String × GoType))
    (hrest : ∀ f ∈ rest, equalFold "items" f.2.1 = false)
    (toR : GoValue → R) (empty : R)
    (hempty : ∀ vs : List GoValue, vs.head? = some (.slice [] []) → toR (.struct vs) = empty)
    (bytes : List Nat) (result : Except GoError R)
    (hres : result = match Unmarshal (.struct (("Items", "items", .slice elem) :: rest)) bytes with
      | .error err => .error err
      | .ok body => .ok (toR body)) :
    DecodeContract (.struct (("Items", "items", .slice elem) :: rest)) empty bytes result := by
  obtain ⟨h1, h2, h3⟩ := unmarshal_shape (.struct (("Items", "items", .slice elem) :: rest)) bytes
  have herr : ∀ j, parseJSON bytes = some j →
      matchesShape (.struct (("Items", "items", .slice elem) :: rest)) j = false →
      ∃ val, result = .error (.jsonUnmarshalType val) := by
    intro j hj hm
    obtain ⟨val, hval⟩ := h2 j hj hm
    exact ⟨val, by rw [hres, hval]⟩
  refine ⟨?_, herr, ?_, ?_, ?_, ?_⟩
  · intro h
    rw [hres, h1 h]
  · intro j hj hn ho
    exact herr j hj (matchesShape_struct_kind _ j hn ho)
  · intro kvs key v hj hmem hk hn ha
    apply herr _ hj
    simp only [matchesShape]
    exact matchesShapeMembers_false _ key v _ (fieldFor_items elem rest hrest key hk)
      (matchesShape_slice_kind elem v hn ha) kvs hmem
  · constructor
    · rintro ⟨r, hr⟩
      cases hj : parseJSON bytes with
      | none => rw [hres, h1 hj] at hr; simp at hr
      | some j =>
        refine ⟨j, rfl, ?_⟩
        by_contra hm
        obtain ⟨val, hval⟩ := herr j hj (by simpa using hm)
        rw [hval] at hr
        simp at hr
    · rintro ⟨j, hj, hm⟩
      exact ⟨_, by rw [hres, h3 j hj hm]⟩
  · intro j hj hm hmiss
    rw [hres, h3 j hj hm]
    simp only [Except.ok.injEq]
    cases j with
    | null =>
      simp only [decodeValue, GoType.zero]
      exact hempty _ (by simp [GoType.zeroFields, GoType.zero])
    | obj kvs =>
      simp only [decodeValue, GoType.zero]
      apply hempty
      exact decodeMembers_items_missing elem rest kvs _ _
        (by simp [GoType.zeroFields, GoType.zero]) (by simpa [JSON.itemsMissing] using hmiss)
    | bool b => simp [JSON.itemsMissing] at hmiss
    | num lit => simp [JSON.itemsMissing] at hmiss
    | str s => simp [JSON.itemsMissing] at hmiss
    | arr xs => simp [JSON.itemsMissing] at hmiss

theorem toArtistResponse_empty (vs : List GoValue) (h : vs.head? = some (.slice [] [])) :
    toArtistResponse (.struct vs) = ⟨[]⟩ := by
  cases vs with
  | nil => simp at h
  | cons v vs =>
    simp only [List.head?_cons, Option.some.injEq] at h
    subst h
    rfl

theorem toTrackResponse_empty (vs : List GoValue) (h : vs.head? = some (.slice [] [])) :
    toTrackResponse (.struct vs) = ⟨[]⟩ := by
  cases vs with
  | nil => simp at h
  | cons v vs =>
    simp only [List.head?_cons, Option.some.injEq] at h
    subst h
    rfl


/-! ### The decoder at bodies out of the ordinary -/

/-- A key that occurs three times.  The second `items` shortens the slice to
    one element, which leaves B in the backing array; the third one lengthens
    it to two elements again, and its second element `{}` is decoded into B,
    changing nothing of it. -/
theorem repeated_items_reuse_backing :
    artistRequest longTerm (constClient
      ("\x7b\"items\":[\x7b\"name\":\"A\"\x7d,\x7b\"name\":\"B\"\x7d]," ++
       "\"items\":[\x7b\"name\":\"C\"\x7d],\"items\":[\x7b\x7d,\x7b\x7d]\x7d")) =
      .ok ⟨[⟨"C"⟩, ⟨"B"⟩]⟩ :=
  rfl

/-- The same within a track: its `artists` are P, Q, then R alone, then two
    elements `{}`, and end as R, Q. -/
theorem repeated_artists_reuse_backing :
    trackRequest longTerm (constClient
      ("\x7b\"items\":[\x7b\"name\":\"S\",\"artists\":[\x7b\"name\":\"P\"\x7d,\x7b\"name\":\"Q\"\x7d]," ++
       "\"artists\":[\x7b\"name\":\"R\"\x7d],\"artists\":[\x7b\x7d,\x7b\x7d]\x7d]\x7d")) =
      .ok ⟨[⟨"S", [⟨"R"⟩, ⟨"Q"⟩]⟩]⟩ :=
  rfl

/-- An empty sequence gives up the backing array: after `[]` nothing is left
    of A and B. -/
theorem empty_items_drop_backing :
    artistRequest longTerm (constClient
      ("\x7b\"items\":[\x7b\"name\":\"A\"\x7d,\x7b\"name\":\"B\"\x7d]," ++
       "\"items\":[],\"items\":[\x7b\x7d,\x7b\x7d]\x7d")) =
      .ok ⟨[⟨""⟩, ⟨""⟩]⟩ :=
  rfl

/-- A body that is not well-formed UTF-8.  The byte `0xFF` inside a string
    literal is read as U+FFFD; the same byte in place of a value is a syntax
    error. -/
theorem malformed_utf8_body :
    parseJSON ([0x5B, 0x22, 0x61, 0xFF, 0x22, 0x5D]) =
      some (.arr [.str (String.mk ['a', replacementChar])]) ∧
    parseJSON ([0x5B, 0xFF, 0x5D]) = none ∧
    Unmarshal spotifyArtistResponseType [0x5B, 0xFF, 0x5D] = .error .jsonSyntax :=
  ⟨rfl, rfl, rfl⟩

/-! ### Printing the tracks reads the first artist only -/

/-- The place of the first element satisfying `p` is unique. -/
theorem first_split_length {α : Type} (p : α → Prop) (pre pre2 : List α) (t t2 : α)
    (post post2 : List α) (he : pre ++ t :: post = pre2 ++ t2 :: post2)
    (hpre : ∀ u ∈ pre, ¬ p u) (ht : p t) (hpre2 : ∀ u ∈ pre2, ¬ p u) (ht2 : p t2) :
    pre.length = pre2.length := by
  induction pre generalizing pre2 with
  | nil =>
    cases pre2 with
    | nil => rfl
    | cons y ys =>
      simp only [List.nil_append, List.cons_append, List.cons.injEq] at he
      exact absurd (he.1 ▸ ht) (hpre2 y (by simp))
  | cons x xs ih =>
    cases pre2 with
    | nil =>
      simp only [List.nil_append, List.cons_append, List.cons.injEq] at he
      exact absurd (he.1 ▸ ht2) (hpre x (by simp))
    | cons y ys =>
      simp only [List.cons_append, List.cons.injEq] at he
      simp only [List.length_cons, Nat.add_right_cancel_iff]
      exact ih ys he.2 (fun u hu => hpre u (by simp [hu])) (fun u hu => hpre2 u (by simp [hu]))

/-- The loop over the tracks reads only the first artist of a track. -/
theorem rangeTracks_firstOnly (items : List TrackItem) :
    ∀ (i : Nat) (out : String),
      rangeTracks i (items.map fun track => { track with Artists := track.Artists.take 1 }) out
        = rangeTracks i items out := by
  induction items with
  | nil => intro i out; rfl
  | cons x xs ih =>
    intro i out
    cases hxa : x.Artists with
    | nil => simp [rangeTracks, hxa]
    | cons first rest =>
      simp only [List.map_cons, rangeTracks, hxa, List.take_succ_cons, List.take_zero]
      exact ih _ _

/-- What `printTracks` does depends on the first artist of every track only. -/
theorem printTracks_firstOnly (a b : spotifyTrackResponse) (out : String) :
    printTracks (some (firstArtistOnly a)) (some (firstArtistOnly b)) out =
      printTracks (some a) (some b) out := by
  simp only [printTracks, firstArtistOnly, rangeTracks_firstOnly]

/-- The lines of the tracks before the first one without artist. -/
theorem rankedLines_prefix (pre : List TrackItem) (t : TrackItem) (post : List TrackItem)
    (i : Nat) (track : TrackItem) (first : TrackArtist) (rest : List TrackArtist)
    (hi : (pre ++ t :: post)[i]? = some track) (hf : track.Artists = first :: rest)
    (hlt : i < (rankedLines 1 (pre.map trackEntry)).length) :
    (rankedLines 1 (pre.map trackEntry))[i]? =
      some (toString (i + 1) ++ ". " ++ track.Name ++ " - " ++ first.Name ++ "\n") := by
  rw [rankedLines_length, List.length_map] at hlt
  rw [List.getElem?_append_left hlt] at hi
  have := rankedLines_get (pre.map trackEntry) 1 i (trackEntry track) (by simp [hi])
  rw [this, Nat.add_comm]
  simp [trackEntry, hf, String.append_assoc]

/-! ## The properties of the specification -/

/-! ### The request URL -/

/-- C1 (request URL). For `long_term` and for `short_term`, the URL built by
    `artistRequest` is `https://api.spotify.com/v1/me/top/artists`, a `?` and a
    query string, and the URL built by `trackRequest` is
    `https://api.spotify.com/v1/me/top/tracks`, a `?` and a query string; in
    both the query string has exactly two parameters, one `time_range` whose
    value is the time range and one `limit` whose value is `5`. -/
theorem request_url_query (timeRange : timeRangeDescriptor)
    (h : timeRange = longTerm ∨ timeRange = shortTerm) :
    (∃ q, artistFullUrl timeRange = "https://api.spotify.com/v1/me/top/artists" ++ "?" ++ q ∧
      paramValues q "time_range" = [timeRange] ∧ paramValues q "limit" = ["5"] ∧
      (queryParams q).length = 2) ∧
    (∃ q, trackFullUrl timeRange = "https://api.spotify.com/v1/me/top/tracks" ++ "?" ++ q ∧
      paramValues q "time_range" = [timeRange] ∧ paramValues q "limit" = ["5"] ∧
      (queryParams q).length = 2) := by
  rcases h with rfl | rfl
  · exact ⟨⟨"limit=5&time_range=long_term", by decide, by decide, by decide, by decide⟩,
      ⟨"limit=5&time_range=long_term", by decide, by decide, by decide, by decide⟩⟩
  · exact ⟨⟨"limit=5&time_range=short_term", by decide, by decide, by decide, by decide⟩,
      ⟨"limit=5&time_range=short_term", by decide, by decide, by decide, by decide⟩⟩

/-- C1, at `short_term`. -/
theorem request_url_query_witness :
    (shortTerm = longTerm ∨ shortTerm = shortTerm) ∧
    (∃ q, artistFullUrl shortTerm =
        "https://api.spotify.com/v1/me/top/artists" ++ "?" ++ q ∧
      paramValues q "time_range" = [shortTerm] ∧ paramValues q "limit" = ["5"] ∧
      (queryParams q).length = 2) :=
  ⟨Or.inr rfl, (request_url_query shortTerm (Or.inr rfl)).1⟩

/-! ### The status check -/

/-- C2 (status check). When the URL parses and `client.Do` answers the request
    with a response `resp` (no transport error), `spotifyRequest` returns
    `resp` if its status code is 200, and otherwise returns the error
    `errors.New("resp had non 200 status code: " + resp.Status)` and no
    response; so it returns a response exactly when the status code is 200. -/
theorem spotifyRequest_status (url : String) (client : Client) (resp : Response)
    (hurl : client.urlError url = none)
    (hdo : client.Do (spotifyRequestOf url client) = .ok resp) :
    (resp.StatusCode = 200 → spotifyRequest url client = .ok resp) ∧
    (resp.StatusCode ≠ 200 → spotifyRequest url client =
      .error (.errorsNew ("resp had non 200 status code: " ++ resp.Status))) ∧
    ((∃ r, spotifyRequest url client = .ok r) ↔ resp.StatusCode = 200) := by
  have hreq : spotifyRequest url client =
      if 200 ≠ resp.StatusCode then
        .error (.errorsNew ("resp had non 200 status code: " ++ resp.Status))
      else .ok resp := by
    simp only [spotifyRequest, NewRequest, hurl, Request.HeaderAdd, List.nil_append,
      List.cons_append]
    simp only [spotifyRequestOf] at hdo
    rw [hdo]
  refine ⟨?_, ?_, ?_⟩
  · intro h
    rw [hreq]
    simp [h]
  · intro h
    rw [hreq]
    simp [Ne.symm h]
  · rw [hreq]
    by_cases h : resp.StatusCode = 200
    · simp [h]
    · simp [h, Ne.symm h]

/-- C2, at the failing server: the answer `401 Unauthorized` becomes an error
    carrying that status text. -/
theorem spotifyRequest_status_witness :
    failingClient.urlError (artistFullUrl longTerm) = none ∧
    failingClient.Do (spotifyRequestOf (artistFullUrl longTerm) failingClient) =
      .ok { StatusCode := 401, Status := "401 Unauthorized", Body := .ok [] } ∧
    spotifyRequest (artistFullUrl longTerm) failingClient =
      .error (.errorsNew ("resp had non 200 status code: " ++ "401 Unauthorized")) :=
  ⟨rfl, rfl,
    (spotifyRequest_status (artistFullUrl longTerm) failingClient
      { StatusCode := 401, Status := "401 Unauthorized", Body := .ok [] } rfl rfl).2.1
      (by decide)⟩

/-! ### The error policy of a flow -/

/-- C3 (error policy of a flow). In `handleArtists` and in `handleTracks`, for
    every schedule of the two goroutines and whatever the two requests return:
    when the function is over and at least one request returned an error, it
    ended in `log.Fatal` with one of the returned errors and nothing is printed
    (no header, no entry), even if the other request succeeded; when both
    succeeded it did not end in `log.Fatal`.  Every run can be continued until
    the function is over. -/
theorem flow_error_aborts (client : Client) (sched : List Thread) :
    (∀ s, (handleArtists client).exec sched (FlowState.init _) = some s →
      (s.main.terminal = true →
        ((failed (getArtistsAllTime client) = true ∨
            failed (getArtistsShortTime client) = true) →
          ∃ e, s.main = .fatal e ∧ s.stdout = "" ∧
            (getArtistsAllTime client = .error e ∨ getArtistsShortTime client = .error e)) ∧
        (failed (getArtistsAllTime client) = false →
          failed (getArtistsShortTime client) = false → ∀ e, s.main ≠ .fatal e)) ∧
      ∃ rest s1, (handleArtists client).exec (sched ++ rest) (FlowState.init _) = some s1 ∧
        s1.main.terminal = true) ∧
    (∀ s, (handleTracks client).exec sched (FlowState.init _) = some s →
      (s.main.terminal = true →
        ((failed (getTracksAllTime client) = true ∨
            failed (getTracksShortTime client) = true) →
          ∃ e, s.main = .fatal e ∧ s.stdout = "" ∧
            (getTracksAllTime client = .error e ∨ getTracksShortTime client = .error e)) ∧
        (failed (getTracksAllTime client) = false →
          failed (getTracksShortTime client) = false → ∀ e, s.main ≠ .fatal e)) ∧
      ∃ rest s1, (handleTracks client).exec (sched ++ rest) (FlowState.init _) = some s1 ∧
        s1.main.terminal = true) := by
  have key : ∀ {R : Type} (f : Flow R) (s : FlowState R),
      f.exec sched (FlowState.init _) = some s →
      (s.main.terminal = true →
        ((failed f.get1 = true ∨ failed f.get2 = true) →
          ∃ e, s.main = .fatal e ∧ s.stdout = "" ∧ (f.get1 = .error e ∨ f.get2 = .error e)) ∧
        (failed f.get1 = false → failed f.get2 = false → ∀ e, s.main ≠ .fatal e)) ∧
      ∃ rest s1, f.exec (sched ++ rest) (FlowState.init _) = some s1 ∧
        s1.main.terminal = true := by
    intro R f s hs
    have hinv := inv_reach f sched s hs
    refine ⟨?_, ?_⟩
    · intro ht
      obtain ⟨-, -, -, hfail, hok⟩ := final_state f s hinv ht
      refine ⟨hfail, ?_⟩
      intro h1 h2 e he
      cases hg1 : f.get1 with
      | error e1 => simp [hg1, failed] at h1
      | ok a =>
        cases hg2 : f.get2 with
        | error e2 => simp [hg2, failed] at h2
        | ok b =>
          rcases hok a b hg1 hg2 with ⟨h3, -⟩ | ⟨p, h3, -⟩ <;> simp [h3] at he
    · obtain ⟨rest, s1, he, ht⟩ := completes f s.rank s (Nat.le_refl _) hinv
      exact ⟨rest, s1, by rw [exec_append f sched rest _ s hs]; exact he, ht⟩
  exact ⟨fun s hs => key (handleArtists client) s hs,
    fun s hs => key (handleTracks client) s hs⟩

/-- C3, at the failing server: the `long_term` artists request is answered
    401 and is over first, the `short_term` one succeeds; the run ends in
    `log.Fatal` with nothing printed. -/
theorem flow_error_aborts_witness :
    (handleArtists failingClient).exec firstFailsFirst (FlowState.init _) =
      some ((handleArtists failingClient).run firstFailsFirst) ∧
    ((handleArtists failingClient).run firstFailsFirst).main.terminal = true ∧
    failed (getArtistsAllTime failingClient) = true ∧
    failed (getArtistsShortTime failingClient) = false ∧
    ∃ e, ((handleArtists failingClient).run firstFailsFirst).main = .fatal e ∧
      ((handleArtists failingClient).run firstFailsFirst).stdout = "" ∧
      (getArtistsAllTime failingClient = .error e ∨
        getArtistsShortTime failingClient = .error e) :=
  ⟨rfl, rfl, rfl, rfl,
    ((((flow_error_aborts failingClient firstFailsFirst).1
      ((handleArtists failingClient).run firstFailsFirst) rfl).1 rfl).1 (Or.inl rfl))⟩

/-! ### The artist lists -/

/-- C4 (artist list). When both artist requests succeeded and `handleArtists`
    is over, whatever the schedule: it returned normally, and what it printed is
    the all-time header, a list `la` of lines, the last-four-weeks header and a
    list `lb` of lines, where `la` (`lb`) has exactly as many lines as the
    all-time (short-time) result has items and its line number `i`, counting
    from zero, is `<i+1>. <name of item i>`: the order received, nothing sorted.
    A result without items gives its header and no line. -/
theorem artist_entries (client : Client) (a b : spotifyArtistResponse)
    (sched : List Thread) (s : FlowState spotifyArtistResponse)
    (ha : getArtistsAllTime client = .ok a) (hb : getArtistsShortTime client = .ok b)
    (hs : (handleArtists client).exec sched (FlowState.init _) = some s)
    (ht : s.main.terminal = true) :
    s.main = .returned ∧
    ∃ la lb : List String,
      s.stdout = "Top five artists all time:\n" ++ concatLines la ++
        "\nTop five artists last four weeks:\n" ++ concatLines lb ∧
      la.length = a.Items.length ∧ lb.length = b.Items.length ∧
      (∀ i artist, a.Items[i]? = some artist →
        la[i]? = some (toString (i + 1) ++ ". " ++ artist.Name ++ "\n")) ∧
      (∀ i artist, b.Items[i]? = some artist →
        lb[i]? = some (toString (i + 1) ++ ". " ++ artist.Name ++ "\n")) ∧
      (a.Items = [] → la = []) ∧ (b.Items = [] → lb = []) := by
  obtain ⟨h1, h2⟩ := artists_final client a b sched s ha hb hs ht
  refine ⟨h1, _, _, h2, ?_, ?_, ?_, ?_, ?_, ?_⟩
  · simp [rankedLines_length]
  · simp [rankedLines_length]
  · intro i artist hi
    have := rankedLines_get (a.Items.map fun artist => artist.Name) 1 i artist.Name
      (by simp [hi])
    rw [this, Nat.add_comm]
  · intro i artist hi
    have := rankedLines_get (b.Items.map fun artist => artist.Name) 1 i artist.Name
      (by simp [hi])
    rw [this, Nat.add_comm]
  · intro h; simp [h, rankedLines]
  · intro h; simp [h, rankedLines]

/-- C4, at the fixture server (three artists, then two). -/
theorem artist_entries_witness :
    getArtistsAllTime fixtureClient = .ok ⟨[⟨"A"⟩, ⟨"B"⟩, ⟨"C"⟩]⟩ ∧
    getArtistsShortTime fixtureClient = .ok ⟨[⟨"X"⟩, ⟨"Y"⟩]⟩ ∧
    (handleArtists fixtureClient).exec secondFirst (FlowState.init _) =
      some ((handleArtists fixtureClient).run secondFirst) ∧
    ((handleArtists fixtureClient).run secondFirst).main = .returned ∧
    ∃ la lb : List String,
      ((handleArtists fixtureClient).run secondFirst).stdout =
        "Top five artists all time:\n" ++ concatLines la ++
        "\nTop five artists last four weeks:\n" ++ concatLines lb ∧
      la.length = 3 ∧ lb.length = 2 :=
  ⟨rfl, rfl, rfl,
    (artist_entries fixtureClient ⟨[⟨"A"⟩, ⟨"B"⟩, ⟨"C"⟩]⟩ ⟨[⟨"X"⟩, ⟨"Y"⟩]⟩ secondFirst
      ((handleArtists fixtureClient).run secondFirst) rfl rfl rfl rfl).1,
    (artist_entries fixtureClient ⟨[⟨"A"⟩, ⟨"B"⟩, ⟨"C"⟩]⟩ ⟨[⟨"X"⟩, ⟨"Y"⟩]⟩ secondFirst
      ((handleArtists fixtureClient).run secondFirst) rfl rfl rfl rfl).2.elim
      fun la h => h.elim fun lb h => ⟨la, lb, h.1, h.2.1, h.2.2.1⟩⟩

/-! ### The track lists -/

/-- C5, as stated, fails: at a server whose `long_term` tracks are one track
    without artist and whose `short_term` track U has the artist P, the
    short-time result is decoded and every track of it has an artist, yet
    `handleTracks` dies in the all-time loop having printed the first header
    only: no entry `1. U - P` is printed, and no second header. -/
theorem short_time_entries_not_printed :
    getTracksAllTime noArtistFirstClient = .ok ⟨[⟨"V", []⟩]⟩ ∧
    getTracksShortTime noArtistFirstClient = .ok ⟨[⟨"U", [⟨"P"⟩]⟩]⟩ ∧
    (∀ t ∈ [(⟨"U", [⟨"P"⟩]⟩ : TrackItem)], t.Artists ≠ []) ∧
    ((handleTracks noArtistFirstClient).exec inOrder (FlowState.init _)).map
        (fun s => (s.main, s.stdout)) =
      some (.panicked .indexOutOfRange, "Top five trackks all time:\n") ∧
    ¬ ("1. U - P\n".data <:+: "Top five trackks all time:\n".data) :=
  ⟨rfl, rfl, by decide, by decide, by decide⟩

/-- C5, amended. When both track requests succeeded and `handleTracks` is
    over, whatever the schedule.  If every track of the all-time result has an
    artist, then, whatever the short-time result is, what is printed is the
    first header, a list `la` of lines, the second header and a list `lb` of
    lines, where `la` has one line per all-time track in the order received,
    line number `i` (from zero) being
    `<i+1>. <track name> - <name of its first artist>`; the lines of `lb` are
    the lines of that form of the first short-time tracks: when every
    short-time track has an artist too, `lb` has one line per short-time track
    and the function returned normally, and otherwise `lb` has the lines of
    the tracks before the first one without artist and the function died of
    the index panic there.  If some all-time track has no artist,
    the function died of the index panic at the first such track and what is
    printed is the first header and the lines of the tracks before it: nothing
    of the short-time result.  The artists after the first never matter:
    results that agree once every track is cut down to its first artist give
    the same output and the same end. -/
theorem track_entries (client : Client) (a b : spotifyTrackResponse)
    (sched : List Thread) (s : FlowState spotifyTrackResponse)
    (ha : getTracksAllTime client = .ok a) (hb : getTracksShortTime client = .ok b)
    (hs : (handleTracks client).exec sched (FlowState.init _) = some s)
    (ht : s.main.terminal = true) :
    ((∀ t ∈ a.Items, t.Artists ≠ []) →
      ∃ la lb : List String,
        s.stdout = "Top five trackks all time:\n" ++ concatLines la ++
          "\nTop five tracks last four weeks:\n" ++ concatLines lb ∧
        la.length = a.Items.length ∧
        (∀ i track first rest, a.Items[i]? = some track → track.Artists = first :: rest →
          la[i]? = some
            (toString (i + 1) ++ ". " ++ track.Name ++ " - " ++ first.Name ++ "\n")) ∧
        lb.length ≤ b.Items.length ∧
        (∀ i track first rest, b.Items[i]? = some track → track.Artists = first :: rest →
          i < lb.length →
          lb[i]? = some
            (toString (i + 1) ++ ". " ++ track.Name ++ " - " ++ first.Name ++ "\n")) ∧
        ((∀ t ∈ b.Items, t.Artists ≠ []) →
          s.main = .returned ∧ lb.length = b.Items.length) ∧
        (∀ pre t post, b.Items = pre ++ t :: post → (∀ u ∈ pre, u.Artists ≠ []) →
          t.Artists = [] →
          s.main = .panicked .indexOutOfRange ∧ lb.length = pre.length)) ∧
    (∀ pre t post, a.Items = pre ++ t :: post → (∀ u ∈ pre, u.Artists ≠ []) →
      t.Artists = [] →
      s.main = .panicked .indexOutOfRange ∧
      s.stdout = "Top five trackks all time:\n" ++
        concatLines (rankedLines 1 (pre.map trackEntry))) ∧
    (∀ (client2 : Client) (a2 b2 : spotifyTrackResponse) (sched2 : List Thread)
        (s2 : FlowState spotifyTrackResponse),
      getTracksAllTime client2 = .ok a2 → getTracksShortTime client2 = .ok b2 →
      firstArtistOnly a2 = firstArtistOnly a → firstArtistOnly b2 = firstArtistOnly b →
      (handleTracks client2).exec sched2 (FlowState.init _) = some s2 →
      s2.main.terminal = true → s2.stdout = s.stdout ∧ s2.main = s.main) := by
  have hfin := tracks_final client a b sched s ha hb hs ht
  obtain ⟨hok, hpa, hpb⟩ := printTracks_cases a b
  have hlineA : ∀ i track first rest, a.Items[i]? = some track →
      track.Artists = first :: rest →
      (rankedLines 1 (a.Items.map trackEntry))[i]? = some
        (toString (i + 1) ++ ". " ++ track.Name ++ " - " ++ first.Name ++ "\n") := by
    intro i track first rest hi hf
    have := rankedLines_get (a.Items.map trackEntry) 1 i (trackEntry track) (by simp [hi])
    rw [this, Nat.add_comm]
    simp [trackEntry, hf, String.append_assoc]
  refine ⟨?_, ?_, ?_⟩
  · intro hallA
    by_cases hbadB : ∃ t ∈ b.Items, t.Artists = []
    · obtain ⟨pre, t, post, he, hpre, hte⟩ :=
        split_first (fun t : TrackItem => t.Artists = []) b.Items hbadB
      have hp := hpb pre t post hallA he hpre hte
      have hout : s.main = .panicked .indexOutOfRange ∧
          s.stdout = "Top five trackks all time:\n" ++
          concatLines (rankedLines 1 (a.Items.map trackEntry)) ++
          "\nTop five tracks last four weeks:\n" ++
          concatLines (rankedLines 1 (pre.map trackEntry)) := by
        rcases hfin with ⟨-, h2⟩ | ⟨p, h1, h2⟩
        · rw [hp] at h2; simp at h2
        · rw [hp] at h2
          simp at h2
          exact ⟨by rw [h1, ← h2.2], h2.1.symm⟩
      refine ⟨_, _, hout.2, by simp [rankedLines_length], hlineA, ?_, ?_, ?_, ?_⟩
      · simp [rankedLines_length, he]
      · intro i track first rest hi hf hlt
        rw [he] at hi
        exact rankedLines_prefix pre t post i track first rest hi hf hlt
      · intro hallB
        exact absurd hte (hallB t (by simp [he]))
      · intro pre2 t2 post2 he2 hpre2 hte2
        refine ⟨hout.1, ?_⟩
        rw [rankedLines_length, List.length_map]
        exact first_split_length (fun t : TrackItem => t.Artists = []) pre pre2 t t2 post post2
          (by rw [← he, he2]) hpre hte hpre2 hte2
    · have hallB : ∀ u ∈ b.Items, u.Artists ≠ [] := by
        intro u hu hue
        exact hbadB ⟨u, hu, hue⟩
      have hp := hok (by
        intro t htm
        simp at htm
        rcases htm with htm | htm
        · exact hallA t htm
        · exact hallB t htm)
      have hboth : s.main = .returned ∧ s.stdout = "Top five trackks all time:\n" ++
          concatLines (rankedLines 1 (a.Items.map trackEntry)) ++
          "\nTop five tracks last four weeks:\n" ++
          concatLines (rankedLines 1 (b.Items.map trackEntry)) := by
        rcases hfin with ⟨h1, h2⟩ | ⟨p, -, h2⟩
        · rw [hp] at h2
          simp at h2
          exact ⟨h1, h2.symm⟩
        · rw [hp] at h2; simp at h2
      refine ⟨_, _, hboth.2, by simp [rankedLines_length], hlineA, ?_, ?_, ?_, ?_⟩
      · simp [rankedLines_length]
      · intro i track first rest hi hf _
        have := rankedLines_get (b.Items.map trackEntry) 1 i (trackEntry track) (by simp [hi])
        rw [this, Nat.add_comm]
        simp [trackEntry, hf, String.append_assoc]
      · intro _
        exact ⟨hboth.1, by simp [rankedLines_length]⟩
      · intro pre2 t2 post2 he2 _ hte2
        exact absurd hte2 (hallB t2 (by simp [he2]))
  · intro pre t post he hpre hte
    have hp := hpa pre t post he hpre hte
    rcases hfin with ⟨-, h2⟩ | ⟨p, h1, h2⟩
    · rw [hp] at h2; simp at h2
    · rw [hp] at h2
      simp at h2
      exact ⟨by rw [h1, ← h2.2], h2.1.symm⟩
  · intro client2 a2 b2 sched2 s2 ha2 hb2 hea heb hs2 ht2
    have hfin2 := tracks_final client2 a2 b2 sched2 s2 ha2 hb2 hs2 ht2
    have hsame : printTracks (some a2) (some b2) "" = printTracks (some a) (some b) "" := by
      rw [← printTracks_firstOnly a2 b2, ← printTracks_firstOnly a b, hea, heb]
    rw [hsame] at hfin2
    rcases hfin with ⟨h1, h2⟩ | ⟨p, h1, h2⟩ <;>
      rcases hfin2 with ⟨h3, h4⟩ | ⟨q, h3, h4⟩ <;>
      rw [h2] at h4 <;> simp at h4
    · exact ⟨h4.symm, by rw [h1, h3]⟩
    · exact ⟨h4.1.symm, by rw [h1, h3, h4.2]⟩

/-- C5 amended, at a server whose all-time tracks S and T have artists and
    whose short-time tracks are U, V (without artist) and W: the all-time
    entries are printed as stated although the run ends in the panic, and one
    short-time entry stands beneath the second header. -/
theorem track_entries_witness :
    getTracksAllTime noArtistClient = .ok ⟨[⟨"S", [⟨"P"⟩, ⟨"Q"⟩]⟩, ⟨"T", [⟨"R"⟩]⟩]⟩ ∧
    getTracksShortTime noArtistClient =
      .ok ⟨[⟨"U", [⟨"P"⟩]⟩, ⟨"V", []⟩, ⟨"W", [⟨"P"⟩]⟩]⟩ ∧
    (handleTracks noArtistClient).exec inOrder (FlowState.init _) =
      some ((handleTracks noArtistClient).run inOrder) ∧
    ((handleTracks noArtistClient).run inOrder).main.terminal = true ∧
    (∀ t ∈ [(⟨"S", [⟨"P"⟩, ⟨"Q"⟩]⟩ : TrackItem), ⟨"T", [⟨"R"⟩]⟩], t.Artists ≠ []) ∧
    ∃ la lb : List String,
      ((handleTracks noArtistClient).run inOrder).stdout =
        "Top five trackks all time:\n" ++ concatLines la ++
          "\nTop five tracks last four weeks:\n" ++ concatLines lb ∧
      la.length = 2 ∧
      la[0]? = some (toString (0 + 1) ++ ". " ++ "S" ++ " - " ++ "P" ++ "\n") ∧
      la[1]? = some (toString (1 + 1) ++ ". " ++ "T" ++ " - " ++ "R" ++ "\n") ∧
      lb.length = 1 :=
  ⟨rfl, rfl, rfl, rfl, by decide,
    ((track_entries noArtistClient ⟨[⟨"S", [⟨"P"⟩, ⟨"Q"⟩]⟩, ⟨"T", [⟨"R"⟩]⟩]⟩
      ⟨[⟨"U", [⟨"P"⟩]⟩, ⟨"V", []⟩, ⟨"W", [⟨"P"⟩]⟩]⟩ inOrder
      ((handleTracks noArtistClient).run inOrder) rfl rfl rfl rfl).1 (by decide)).elim
      fun la h => h.elim fun lb h =>
        ⟨la, lb, h.1, h.2.1, h.2.2.1 0 ⟨"S", [⟨"P"⟩, ⟨"Q"⟩]⟩ ⟨"P"⟩ [⟨"Q"⟩] rfl rfl,
          h.2.2.1 1 ⟨"T", [⟨"R"⟩]⟩ ⟨"R"⟩ [] rfl rfl,
          (h.2.2.2.2.2.2 [⟨"U", [⟨"P"⟩]⟩] ⟨"V", []⟩ [⟨"W", [⟨"P"⟩]⟩] rfl (by decide) rfl).2⟩⟩


/-! ### The output of the artists flow -/

/-- C6, as stated, fails: with the artists A, B, C for `long_term` and X, Y
    for `short_term` the output is not the all-time section directly followed
    by the last-four-weeks section; an empty line stands between them. -/
theorem artists_output_has_blank_line :
    getArtistsAllTime fixtureClient = .ok ⟨[⟨"A"⟩, ⟨"B"⟩, ⟨"C"⟩]⟩ ∧
    getArtistsShortTime fixtureClient = .ok ⟨[⟨"X"⟩, ⟨"Y"⟩]⟩ ∧
    ((handleArtists fixtureClient).exec inOrder (FlowState.init _)).map
        (fun s => (s.main, s.stdout)) =
      some (.returned,
        "Top five artists all time:\n1. A\n2. B\n3. C\n\nTop five artists last four weeks:\n1. X\n2. Y\n") ∧
    "Top five artists all time:\n1. A\n2. B\n3. C\n\nTop five artists last four weeks:\n1. X\n2. Y\n" ≠
      "Top five artists all time:\n1. A\n2. B\n3. C\n" ++
        "Top five artists last four weeks:\n1. X\n2. Y\n" :=
  ⟨rfl, rfl, by decide, by decide⟩

/-- C6, amended. When both artist requests succeeded and `handleArtists` is
    over, whatever the schedule, its output is the all-time header line and its
    ranked entries, then an empty line, then the last-four-weeks header line
    and its ranked entries; for the artists A, B, C and X, Y that is
    "Top five artists all time:\n1. A\n2. B\n3. C\n", "\n" and
    "Top five artists last four weeks:\n1. X\n2. Y\n". -/
theorem artists_output (client : Client) (a b : spotifyArtistResponse)
    (sched : List Thread) (s : FlowState spotifyArtistResponse)
    (ha : getArtistsAllTime client = .ok a) (hb : getArtistsShortTime client = .ok b)
    (hs : (handleArtists client).exec sched (FlowState.init _) = some s)
    (ht : s.main.terminal = true) :
    s.stdout =
      ("Top five artists all time:\n" ++
        concatLines (rankedLines 1 (a.Items.map fun artist => artist.Name))) ++ "\n" ++
      ("Top five artists last four weeks:\n" ++
        concatLines (rankedLines 1 (b.Items.map fun artist => artist.Name))) ∧
    (a = ⟨[⟨"A"⟩, ⟨"B"⟩, ⟨"C"⟩]⟩ → b = ⟨[⟨"X"⟩, ⟨"Y"⟩]⟩ →
      s.stdout = "Top five artists all time:\n1. A\n2. B\n3. C\n" ++ "\n" ++
        "Top five artists last four weeks:\n1. X\n2. Y\n") := by
  obtain ⟨-, h2⟩ := artists_final client a b sched s ha hb hs ht
  have h3 : s.stdout =
      ("Top five artists all time:\n" ++
        concatLines (rankedLines 1 (a.Items.map fun artist => artist.Name))) ++ "\n" ++
      ("Top five artists last four weeks:\n" ++
        concatLines (rankedLines 1 (b.Items.map fun artist => artist.Name))) := by
    rw [h2]
    have : "\nTop five artists last four weeks:\n" =
        "\n" ++ "Top five artists last four weeks:\n" := by decide
    rw [this]
    simp only [String.append_assoc]
  refine ⟨h3, ?_⟩
  intro hae hbe
  rw [h3, hae, hbe]
  decide

/-- C6 amended, at the fixture server. -/
theorem artists_output_witness :
    getArtistsAllTime fixtureClient = .ok ⟨[⟨"A"⟩, ⟨"B"⟩, ⟨"C"⟩]⟩ ∧
    getArtistsShortTime fixtureClient = .ok ⟨[⟨"X"⟩, ⟨"Y"⟩]⟩ ∧
    (handleArtists fixtureClient).exec inOrder (FlowState.init _) =
      some ((handleArtists fixtureClient).run inOrder) ∧
    ((handleArtists fixtureClient).run inOrder).main.terminal = true ∧
    ((handleArtists fixtureClient).run inOrder).stdout =
      "Top five artists all time:\n1. A\n2. B\n3. C\n" ++ "\n" ++
        "Top five artists last four weeks:\n1. X\n2. Y\n" :=
  ⟨rfl, rfl, rfl, rfl,
    (artists_output fixtureClient ⟨[⟨"A"⟩, ⟨"B"⟩, ⟨"C"⟩]⟩ ⟨[⟨"X"⟩, ⟨"Y"⟩]⟩ inOrder
      ((handleArtists fixtureClient).run inOrder) rfl rfl rfl rfl).2 rfl rfl⟩

/-! ### The headers of the track lists -/

/-- C7: the first header `handleTracks` prints is "Top five trackks all time:",
    with a doubled k, not "Top five tracks all time:"; the second one is
    "Top five tracks last four weeks:".  Evaluated at the fixture server. -/
theorem tracks_header_typo :
    ((handleTracks fixtureClient).exec inOrder (FlowState.init _)).map
        (fun s => (s.main, s.stdout)) =
      some (.returned,
        "Top five trackks all time:\n1. S - P\n2. T - R\n\nTop five tracks last four weeks:\n1. U - P\n") ∧
    "Top five trackks all time:\n1. S - P\n2. T - R\n\nTop five tracks last four weeks:\n1. U - P\n" ≠
      "Top five tracks all time:\n1. S - P\n2. T - R\n\nTop five tracks last four weeks:\n1. U - P\n" :=
  ⟨by decide, by decide⟩

/-! ### A track without artist -/

/-- C8 (track without artist). When both track requests succeeded and
    `handleTracks` is over, whatever the schedule: if some track of either
    result has no artist, the process has died of an index-out-of-range panic,
    and what is printed stops right before the first such track (the header and
    the entries before it, after the whole all-time section when the track is
    in the short-time result); if every track has at least one artist, the
    function returned normally. -/
theorem tracks_index_panic (client : Client) (a b : spotifyTrackResponse)
    (sched : List Thread) (s : FlowState spotifyTrackResponse)
    (ha : getTracksAllTime client = .ok a) (hb : getTracksShortTime client = .ok b)
    (hs : (handleTracks client).exec sched (FlowState.init _) = some s)
    (ht : s.main.terminal = true) :
    ((∃ t ∈ a.Items ++ b.Items, t.Artists = []) → s.main = .panicked .indexOutOfRange) ∧
    (∀ pre t post, a.Items = pre ++ t :: post → (∀ u ∈ pre, u.Artists ≠ []) →
      t.Artists = [] →
      s.stdout = "Top five trackks all time:\n" ++
        concatLines (rankedLines 1 (pre.map trackEntry))) ∧
    (∀ pre t post, (∀ u ∈ a.Items, u.Artists ≠ []) → b.Items = pre ++ t :: post →
      (∀ u ∈ pre, u.Artists ≠ []) → t.Artists = [] →
      s.stdout = "Top five trackks all time:\n" ++
        concatLines (rankedLines 1 (a.Items.map trackEntry)) ++
        "\nTop five tracks last four weeks:\n" ++
        concatLines (rankedLines 1 (pre.map trackEntry))) ∧
    ((∀ t ∈ a.Items ++ b.Items, t.Artists ≠ []) → s.main = .returned) := by
  have hfin := tracks_final client a b sched s ha hb hs ht
  obtain ⟨hok, hpa, hpb⟩ := printTracks_cases a b
  have hA : ∀ pre t post, a.Items = pre ++ t :: post → (∀ u ∈ pre, u.Artists ≠ []) →
      t.Artists = [] →
      s.main = .panicked .indexOutOfRange ∧
      s.stdout = "Top five trackks all time:\n" ++
        concatLines (rankedLines 1 (pre.map trackEntry)) := by
    intro pre t post he hpre hte
    have hp := hpa pre t post he hpre hte
    rcases hfin with ⟨-, h2⟩ | ⟨p, h1, h2⟩
    · rw [hp] at h2; simp at h2
    · rw [hp] at h2
      simp at h2
      exact ⟨by rw [h1, ← h2.2], h2.1.symm⟩
  have hB : ∀ pre t post, (∀ u ∈ a.Items, u.Artists ≠ []) → b.Items = pre ++ t :: post →
      (∀ u ∈ pre, u.Artists ≠ []) → t.Artists = [] →
      s.main = .panicked .indexOutOfRange ∧
      s.stdout = "Top five trackks all time:\n" ++
        concatLines (rankedLines 1 (a.Items.map trackEntry)) ++
        "\nTop five tracks last four weeks:\n" ++
        concatLines (rankedLines 1 (pre.map trackEntry)) := by
    intro pre t post hall he hpre hte
    have hp := hpb pre t post hall he hpre hte
    rcases hfin with ⟨-, h2⟩ | ⟨p, h1, h2⟩
    · rw [hp] at h2; simp at h2
    · rw [hp] at h2
      simp at h2
      exact ⟨by rw [h1, ← h2.2], h2.1.symm⟩
  refine ⟨?_, fun pre t post he hpre hte => (hA pre t post he hpre hte).2,
    fun pre t post hall he hpre hte => (hB pre t post hall he hpre hte).2, ?_⟩
  · intro hex
    by_cases hbadA : ∃ t ∈ a.Items, t.Artists = []
    · obtain ⟨pre, t, post, he, hpre, hte⟩ :=
        split_first (fun t : TrackItem => t.Artists = []) a.Items hbadA
      exact (hA pre t post he hpre hte).1
    · have hallA : ∀ u ∈ a.Items, u.Artists ≠ [] := by
        intro u hu hue
        exact hbadA ⟨u, hu, hue⟩
      have hbadB : ∃ t ∈ b.Items, t.Artists = [] := by
        obtain ⟨t, htm, hte⟩ := hex
        simp at htm
        rcases htm with htm | htm
        · exact absurd hte (hallA t htm)
        · exact ⟨t, htm, hte⟩
      obtain ⟨pre, t, post, he, hpre, hte⟩ :=
        split_first (fun t : TrackItem => t.Artists = []) b.Items hbadB
      exact (hB pre t post hallA he hpre hte).1
  · intro hall
    have hp := hok hall
    rcases hfin with ⟨h1, -⟩ | ⟨p, -, h2⟩
    · exact h1
    · rw [hp] at h2; simp at h2

/-- C8, at a server whose `short_term` tracks are U (with an artist), V (with
    none) and W: the run dies of the panic after the entry of U. -/
theorem tracks_index_panic_witness :
    getTracksAllTime noArtistClient = .ok ⟨[⟨"S", [⟨"P"⟩, ⟨"Q"⟩]⟩, ⟨"T", [⟨"R"⟩]⟩]⟩ ∧
    getTracksShortTime noArtistClient =
      .ok ⟨[⟨"U", [⟨"P"⟩]⟩, ⟨"V", []⟩, ⟨"W", [⟨"P"⟩]⟩]⟩ ∧
    (handleTracks noArtistClient).exec inOrder (FlowState.init _) =
      some ((handleTracks noArtistClient).run inOrder) ∧
    ((handleTracks noArtistClient).run inOrder).main = .panicked .indexOutOfRange ∧
    ((handleTracks noArtistClient).run inOrder).stdout =
      "Top five trackks all time:\n1. S - P\n2. T - R\n\nTop five tracks last four weeks:\n1. U - P\n" :=
  ⟨rfl, rfl, rfl,
    (tracks_index_panic noArtistClient ⟨[⟨"S", [⟨"P"⟩, ⟨"Q"⟩]⟩, ⟨"T", [⟨"R"⟩]⟩]⟩
      ⟨[⟨"U", [⟨"P"⟩]⟩, ⟨"V", []⟩, ⟨"W", [⟨"P"⟩]⟩]⟩ inOrder
      ((handleTracks noArtistClient).run inOrder) rfl rfl rfl rfl).1
      ⟨⟨"V", []⟩, by decide, rfl⟩,
    by decide⟩

/-! ### Decode errors -/

/-- C9, as stated, fails: the body `{}` has no `items` field, and the body
    with `items` set to `null` has no `items` sequence, yet with status 200
    `artistRequest` and `trackRequest` return a result (without items) and no
    decode error. -/
theorem missing_items_decodes :
    parseJSON (goBytes "\x7b\x7d") = some (.obj []) ∧
    parseJSON (goBytes "\x7b\"items\":null\x7d") = some (.obj [("items", .null)]) ∧
    spotifyRequest (artistFullUrl longTerm) (constClient "\x7b\x7d") =
      .ok (okResponse "\x7b\x7d") ∧
    artistRequest longTerm (constClient "\x7b\x7d") = .ok ⟨[]⟩ ∧
    trackRequest longTerm (constClient "\x7b\x7d") = .ok ⟨[]⟩ ∧
    artistRequest longTerm (constClient "\x7b\"items\":null\x7d") = .ok ⟨[]⟩ ∧
    trackRequest longTerm (constClient "\x7b\"items\":null\x7d") = .ok ⟨[]⟩ :=
  ⟨rfl, rfl, rfl, rfl, rfl, rfl, rfl⟩

/-- C9, amended. For every body received with status 200, `artistRequest` and
    `trackRequest` return a decode error and no result whenever the body is not
    valid JSON (a syntax error) or does not structurally match the declared
    shape of the result (a type error), where `null` and a missing member match
    every shape: in particular whenever the top-level value is neither an
    object nor `null`, and whenever a member named `items` is neither a
    sequence nor `null`.  They return a result exactly for the bodies that are
    valid JSON and match the shape.  A missing `items` member, or one that is
    `null`, is no error: every body that is valid JSON, matches the shape and
    has `items` missing or `null` gives the result without items. -/
theorem decode_errors (timeRange : timeRangeDescriptor) (client : Client)
    (bytes : List Nat) :
    (∀ resp, spotifyRequest (artistFullUrl timeRange) client = .ok resp →
      resp.Body = .ok bytes →
      DecodeContract spotifyArtistResponseType (⟨[]⟩ : spotifyArtistResponse) bytes
        (artistRequest timeRange client)) ∧
    (∀ resp, spotifyRequest (trackFullUrl timeRange) client = .ok resp →
      resp.Body = .ok bytes →
      DecodeContract spotifyTrackResponseType (⟨[]⟩ : spotifyTrackResponse) bytes
        (trackRequest timeRange client)) := by
  refine ⟨?_, ?_⟩
  · intro resp hreq hbody
    exact decodeContract_of_unmarshal _ _ (by decide) toArtistResponse ⟨[]⟩
      toArtistResponse_empty bytes _ (by
        simp only [artistRequest, hreq, hbody] <;> rfl)
  · intro resp hreq hbody
    exact decodeContract_of_unmarshal _ _ (by decide) toTrackResponse ⟨[]⟩
      toTrackResponse_empty bytes _ (by
        simp only [trackRequest, hreq, hbody] <;> rfl)

/-- C9 amended, at two servers: one answers with an item whose `name` is a
    number, a mismatch below the top level, and `artistRequest` returns a type
    error; the other answers with an object that has a `total` member and no
    `items` member, and `trackRequest` returns the result without items. -/
theorem decode_errors_witness :
    spotifyRequest (artistFullUrl longTerm)
        (constClient "\x7b\"items\":[\x7b\"name\":5\x7d]\x7d") =
      .ok (okResponse "\x7b\"items\":[\x7b\"name\":5\x7d]\x7d") ∧
    (okResponse "\x7b\"items\":[\x7b\"name\":5\x7d]\x7d").Body =
      .ok (goBytes "\x7b\"items\":[\x7b\"name\":5\x7d]\x7d") ∧
    parseJSON (goBytes "\x7b\"items\":[\x7b\"name\":5\x7d]\x7d") =
      some (.obj [("items", .arr [.obj [("name", .num "5")]])]) ∧
    matchesShape spotifyArtistResponseType
      (.obj [("items", .arr [.obj [("name", .num "5")]])]) = false ∧
    artistRequest longTerm (constClient "\x7b\"items\":[\x7b\"name\":5\x7d]\x7d") =
      .error (.jsonUnmarshalType "number") ∧
    (∃ val, artistRequest longTerm (constClient "\x7b\"items\":[\x7b\"name\":5\x7d]\x7d") =
      .error (.jsonUnmarshalType val)) ∧
    parseJSON (goBytes "\x7b\"total\":3\x7d") = some (.obj [("total", .num "3")]) ∧
    trackRequest shortTerm (constClient "\x7b\"total\":3\x7d") = .ok ⟨[]⟩ :=
  ⟨rfl, rfl, rfl, rfl, rfl,
    ((decode_errors longTerm (constClient "\x7b\"items\":[\x7b\"name\":5\x7d]\x7d")
      (goBytes "\x7b\"items\":[\x7b\"name\":5\x7d]\x7d")).1
      (okResponse "\x7b\"items\":[\x7b\"name\":5\x7d]\x7d") rfl rfl).2.1
      (.obj [("items", .arr [.obj [("name", .num "5")]])]) rfl rfl,
    rfl,
    ((decode_errors shortTerm (constClient "\x7b\"total\":3\x7d")
      (goBytes "\x7b\"total\":3\x7d")).2
      (okResponse "\x7b\"total\":3\x7d") rfl rfl).2.2.2.2.2
      (.obj [("total", .num "3")]) rfl rfl rfl⟩


/-! ### The join of the two requests -/

/-- C10 (join barrier). In `handleArtists` and in `handleTracks`, for every
    schedule of the two goroutines, in the state reached: the function body is
    past `wg.Wait()` only when both goroutines are over and both requests have
    been made; a goroutine that has started and is not over can always make its
    next step, the process being alive, whatever the other goroutine did
    (nothing cancels it); some thread can move as long as the function is not
    over; the run can be completed and then both requests have been made.  A
    run has at most twelve steps. -/
theorem join_barrier (client : Client) (sched : List Thread) :
    (∀ s, (handleArtists client).exec sched (FlowState.init _) = some s →
      JoinBarrier (handleArtists client) s ∧ sched.length ≤ 12) ∧
    (∀ s, (handleTracks client).exec sched (FlowState.init _) = some s →
      JoinBarrier (handleTracks client) s ∧ sched.length ≤ 12) := by
  have key : ∀ {R : Type} (f : Flow R) (s : FlowState R),
      f.exec sched (FlowState.init _) = some s → JoinBarrier f s ∧ sched.length ≤ 12 := by
    intro R f s hs
    refine ⟨joinBarrier_of_inv f s (inv_reach f sched s hs), ?_⟩
    have := rank_exec f sched _ s (inv_init f) hs
    rw [rank_init] at this
    omega
  exact ⟨fun s hs => key (handleArtists client) s hs,
    fun s hs => key (handleTracks client) s hs⟩

/-- C10, at the failing server, when the failed `long_term` goroutine is over
    and the other one has not yet made its call: that one can still move, and
    the run is completed with two calls made. -/
theorem join_barrier_witness :
    (handleArtists failingClient).exec (firstFailsFirst.take 6) (FlowState.init _) =
      some ((handleArtists failingClient).run (firstFailsFirst.take 6)) ∧
    ((handleArtists failingClient).run (firstFailsFirst.take 6)).t1 = .finished ∧
    ((handleArtists failingClient).run (firstFailsFirst.take 6)).requestErr.isSome = true ∧
    ((handleArtists failingClient).run (firstFailsFirst.take 6)).t2 = .ready ∧
    JoinBarrier (handleArtists failingClient)
      ((handleArtists failingClient).run (firstFailsFirst.take 6)) :=
  ⟨rfl, rfl, rfl, rfl,
    ((join_barrier failingClient (firstFailsFirst.take 6)).1
      ((handleArtists failingClient).run (firstFailsFirst.take 6)) rfl).1⟩

end SpotifyTopFive
